import Mathlib

/-!
Shallow embedding of the arena-based MCTS engine of this repository
(src/mcts/mcts.rs, src/mcts/game_state_trait.rs, src/mcts/chess_env.rs).

Modelling conventions:
* Rust `usize`/`u32`/`u16` counters become `Nat` (the claims never approach
  the wrap-around range of the machine types).
* Rust panics (`expect`, out-of-bounds indexing) become `Option.none`
  results: a function that can panic returns `Option _`, and `none` means
  the call aborted.
* The xorshift RNG state is externalised: every call of
  `gen_range(0, n)` in the source is modelled by an oracle value `r : Nat`
  supplied by the caller, reduced to an in-range index as `r % n`
  (`gen_range` always yields a value `< n`; quantifying over the oracle
  covers every possible RNG outcome).
* The `while` loops walk the arena; they are written with an explicit
  fuel argument so that the definitions stay structurally recursive.  The
  fuel chosen by the wrappers is provably sufficient on well-formed trees
  (parent index below child index), which is the shape every tree built
  by the engine has; `none` on fuel exhaustion corresponds to the
  divergence the source would exhibit on a malformed hand-built tree.
* `f32` arithmetic inside `uct` is modelled by real numbers extended with
  the IEEE special values NaN, +inf and -inf (type `FV` below); rounding
  is idealised away but the special-value propagation of the exact
  expression in the source is preserved.  All integer counters are
  non-negative, so the single real zero stands for IEEE `+0.0`.
-/

namespace MctsVerify

/-- `GameResult` from game_state_trait.rs: outcomes of a two player game. -/
inductive GameResult where
  | FirstPlayerWin
  | SecondPlayerWin
  | Draw
deriving DecidableEq, Repr

/-- The `GameState` trait from game_state_trait.rs, as a record of the
operations the engine consumes.  `A` is the action type, `S` the state. -/
structure GameIface (A S : Type) where
  from_str : String → S
  apply_action : S → A → S
  status_with_moves_left : S → Bool
  game_result : S → GameResult
  generate_legal_actions : S → List A
  side_to_move : S → Bool

/-- `MCTSNode` from mcts.rs: one position of the explored tree plus its
accumulated statistics. -/
structure MCTSNode (A S : Type) where
  game_state : S
  parent : Option Nat
  expanded : List Nat
  unexpanded : List A
  wins : Nat
  draws : Nat
  sims : Nat
deriving DecidableEq

/-- `MCTSTree` from mcts.rs.  The RNG state is externalised (see the file
comment), and the arena is a list indexed by position. -/
structure MCTSTree (A S : Type) where
  arena : List (MCTSNode A S)
  average_child_count : Nat
deriving DecidableEq

/-- `MCTSTree::with_capacity`: builds the tree holding only the root node,
parsed from `starting_pos`, with its legal actions as `unexpanded` and all
counters zero.  `arena_capacity` only pre-allocates and `seed` only seeds
the externalised RNG, so neither affects the model's state. -/
def with_capacity {A S : Type} (g : GameIface A S) (arena_capacity : Nat)
    (seed : Option Nat) (starting_pos : String) (average_child_count : Nat) :
    MCTSTree A S :=
  let root_game_state := g.from_str starting_pos
  let unexpanded := g.generate_legal_actions root_game_state
  { arena := [{ game_state := root_game_state, parent := none, expanded := [],
                unexpanded := unexpanded, wins := 0, draws := 0, sims := 0 }],
    average_child_count := average_child_count }

/-! ### Model of the `f32` values produced by `uct` -/

/-- An `f32` value as used inside `uct`: a real number or an IEEE special
value.  Rounding is idealised away; NaN/inf propagation is kept. -/
inductive FV where
  | nan
  | pinf
  | ninf
  | val : ℝ → FV

open scoped Classical in
/-- IEEE division for the operand shapes reachable in `uct`
(`wins/sims` and `ln(parent_sims)/sims`); the real zero stands for `+0.0`. -/
noncomputable def fdiv : FV → FV → FV
  | FV.nan, _ => FV.nan
  | _, FV.nan => FV.nan
  | FV.val a, FV.val b =>
      if b = 0 then (if 0 < a then FV.pinf else if a < 0 then FV.ninf else FV.nan)
      else FV.val (a / b)
  | FV.pinf, FV.val b => if b < 0 then FV.ninf else FV.pinf
  | FV.ninf, FV.val b => if b < 0 then FV.pinf else FV.ninf
  | FV.val _, FV.pinf => FV.val 0
  | FV.val _, FV.ninf => FV.val 0
  | FV.pinf, FV.pinf => FV.nan
  | FV.pinf, FV.ninf => FV.nan
  | FV.ninf, FV.pinf => FV.nan
  | FV.ninf, FV.ninf => FV.nan

open scoped Classical in
/-- IEEE `f32::ln`. -/
noncomputable def fln : FV → FV
  | FV.nan => FV.nan
  | FV.pinf => FV.pinf
  | FV.ninf => FV.nan
  | FV.val a => if 0 < a then FV.val (Real.log a) else if a = 0 then FV.ninf else FV.nan

open scoped Classical in
/-- IEEE `f32::sqrt`. -/
noncomputable def fsqrt : FV → FV
  | FV.nan => FV.nan
  | FV.pinf => FV.pinf
  | FV.ninf => FV.nan
  | FV.val a => if 0 ≤ a then FV.val (Real.sqrt a) else FV.nan

open scoped Classical in
/-- IEEE multiplication. -/
noncomputable def fmul : FV → FV → FV
  | FV.nan, _ => FV.nan
  | _, FV.nan => FV.nan
  | FV.val a, FV.val b => FV.val (a * b)
  | FV.val a, FV.pinf => if 0 < a then FV.pinf else if a < 0 then FV.ninf else FV.nan
  | FV.pinf, FV.val b => if 0 < b then FV.pinf else if b < 0 then FV.ninf else FV.nan
  | FV.val a, FV.ninf => if 0 < a then FV.ninf else if a < 0 then FV.pinf else FV.nan
  | FV.ninf, FV.val b => if 0 < b then FV.ninf else if b < 0 then FV.pinf else FV.nan
  | FV.pinf, FV.pinf => FV.pinf
  | FV.pinf, FV.ninf => FV.ninf
  | FV.ninf, FV.pinf => FV.ninf
  | FV.ninf, FV.ninf => FV.pinf

/-- IEEE addition. -/
noncomputable def fadd : FV → FV → FV
  | FV.nan, _ => FV.nan
  | _, FV.nan => FV.nan
  | FV.val a, FV.val b => FV.val (a + b)
  | FV.val _, FV.pinf => FV.pinf
  | FV.pinf, FV.val _ => FV.pinf
  | FV.val _, FV.ninf => FV.ninf
  | FV.ninf, FV.val _ => FV.ninf
  | FV.pinf, FV.pinf => FV.pinf
  | FV.ninf, FV.ninf => FV.ninf
  | FV.pinf, FV.ninf => FV.nan
  | FV.ninf, FV.pinf => FV.nan

/-- IEEE strict `>`: false whenever either side is NaN. -/
def fgt : FV → FV → Prop
  | FV.val a, FV.val b => b < a
  | FV.pinf, FV.val _ => True
  | FV.pinf, FV.ninf => True
  | FV.val _, FV.ninf => True
  | _, _ => False

/-- `f32::MIN`, the initial `best_value` of `get_max_uct_child`. -/
noncomputable def f32MIN : ℝ := -((2 : ℝ) ^ 128 - (2 : ℝ) ^ 104)

/-- The arithmetic of `MCTSTree::uct`:
`(wins / sims) + c * sqrt(ln(parent_sims) / sims)` over the `FV` model. -/
noncomputable def uctFV (wins sims parent_sims : Nat) (c : ℝ) : FV :=
  fadd (fdiv (FV.val (wins : ℝ)) (FV.val (sims : ℝ)))
    (fmul (FV.val c)
      (fsqrt (fdiv (fln (FV.val (parent_sims : ℝ))) (FV.val (sims : ℝ)))))

/-- `MCTSTree::uct`.  `none` models the panic on a parentless node
(`expect("no parent")`) or an out-of-bounds arena index; the default
exploration factor is `sqrt 2`. -/
noncomputable def uct {A S : Type} (t : MCTSTree A S) (child : Nat)
    (exploration_factor : Option ℝ) : Option FV :=
  match t.arena.get? child with
  | none => none
  | some child_obj =>
    match child_obj.parent with
    | none => none
    | some p =>
      match t.arena.get? p with
      | none => none
      | some parent_obj =>
        some (uctFV child_obj.wins child_obj.sims parent_obj.sims
          (exploration_factor.getD (Real.sqrt 2)))

open scoped Classical in
/-- The scanning loop of `get_max_uct_child`: walks the child list keeping
the first child whose UCT strictly exceeds the running maximum.  A `none`
from `uct` (panic) aborts the whole call. -/
noncomputable def gmGo {A S : Type} (t : MCTSTree A S) (c : Option ℝ) :
    List Nat → FV → Nat → Option Nat
  | [], _, best_child => some best_child
  | child :: rest, best_value, best_child =>
    match uct t child c with
    | none => none
    | some child_uct =>
      if fgt child_uct best_value then gmGo t c rest child_uct child
      else gmGo t c rest best_value best_child

/-- `MCTSTree::get_max_uct_child`: scan `parent.expanded` starting from
`best_value = f32::MIN`, `best_child = 0`. -/
noncomputable def get_max_uct_child {A S : Type} (t : MCTSTree A S)
    (parent : Nat) (c : Option ℝ) : Option Nat :=
  match t.arena.get? parent with
  | none => none
  | some parent_obj => gmGo t c parent_obj.expanded (FV.val f32MIN) 0

/-- The `while` loop of `MCTSTree::select`, with explicit fuel.  `none`
models a panic inside `get_max_uct_child` or fuel exhaustion (the source
would loop forever on a tree whose descent never reaches a leaf). -/
noncomputable def selectFuel {A S : Type} (t : MCTSTree A S) (c : Option ℝ) :
    Nat → Nat → Option Nat
  | 0, _ => none
  | fuel + 1, root =>
    match t.arena.get? root with
    | none => none
    | some node =>
      if node.unexpanded.length = 0 then
        if node.expanded.length = 0 then some root
        else
          match get_max_uct_child t root c with
          | none => none
          | some next => selectFuel t c fuel next
      else some root

/-- `MCTSTree::select`.  On every tree the engine itself builds, the
descent strictly increases the arena index, so `arena.length + 1` steps of
fuel are always enough. -/
noncomputable def select {A S : Type} (t : MCTSTree A S) (root : Nat)
    (exploration_factor : Option ℝ) : Option Nat :=
  selectFuel t exploration_factor (t.arena.length + 1) root

/-- `MCTSTree::expand`.  `r` is the RNG oracle for `gen_range`; the chosen
index is `r % unexpanded.len()`.  Returns the updated tree and the arena
index of the new node (or of `leaf_node` itself when it is terminal). -/
def expand {A S : Type} (g : GameIface A S) (t : MCTSTree A S)
    (leaf_node : Nat) (r : Nat) : Option (MCTSTree A S × Nat) :=
  match t.arena.get? leaf_node with
  | none => none
  | some node =>
    if h : node.unexpanded.length = 0 then some (t, leaf_node)
    else
      let random_number := r % node.unexpanded.length
      let random_action := node.unexpanded.get
        ⟨random_number, Nat.mod_lt _ (Nat.pos_of_ne_zero h)⟩
      let expanded_game_state := g.apply_action node.game_state random_action
      let expanded_game_state_unexpanded :=
        g.generate_legal_actions expanded_game_state
      let arena1 := t.arena ++
        [{ game_state := expanded_game_state, parent := some leaf_node,
           expanded := [], unexpanded := expanded_game_state_unexpanded,
           wins := 0, draws := 0, sims := 0 }]
      let expanded_node := t.arena.length
      let node1 := { node with
        unexpanded := node.unexpanded.eraseIdx random_number,
        expanded := node.expanded ++ [expanded_node] }
      some ({ t with arena := arena1.set leaf_node node1 }, expanded_node)

/-- Driver for the "repeated `expand` calls on the same leaf" property:
runs `expand` once per RNG oracle value in `rs`, collecting the action
chosen at each step (a panicking call contributes no action and leaves the
tree unchanged, matching the abort). -/
def expandRun {A S : Type} (g : GameIface A S) (leaf : Nat) :
    List Nat → MCTSTree A S → MCTSTree A S × List A
  | [], t => (t, [])
  | r :: rs, t =>
    let chosen : Option A :=
      (t.arena.get? leaf).bind fun node =>
        if h : node.unexpanded.length = 0 then none
        else some (node.unexpanded.get
          ⟨r % node.unexpanded.length, Nat.mod_lt _ (Nat.pos_of_ne_zero h)⟩)
    let t1 := ((expand g t leaf r).map Prod.fst).getD t
    let rest := expandRun g leaf rs t1
    (rest.1, chosen.toList ++ rest.2)

/-- One statistics update of `backpropagate` at a single node:
draws on a Draw; wins when `(result == FirstPlayerWin) == !side_to_move()`;
sims always. -/
def bumpNode {A S : Type} (g : GameIface A S) (node : MCTSNode A S)
    (result : GameResult) : MCTSNode A S :=
  let node1 :=
    if result = GameResult.Draw then { node with draws := node.draws + 1 }
    else
      let result_bool := result = GameResult.FirstPlayerWin
      let side_bool := !(g.side_to_move node.game_state)
      if (decide result_bool) = side_bool then { node with wins := node.wins + 1 }
      else node
  { node1 with sims := node1.sims + 1 }

/-- The walk of `backpropagate`, with explicit fuel, acting on the arena.
`none` models an out-of-bounds index panic or fuel exhaustion (the source
would loop forever on a cyclic parent chain). -/
def bpGo {A S : Type} (g : GameIface A S) (result : GameResult) :
    Nat → Nat → List (MCTSNode A S) → Option (List (MCTSNode A S))
  | 0, _, _ => none
  | fuel + 1, current_node, arena =>
    match arena.get? current_node with
    | none => none
    | some node =>
      let arena1 := arena.set current_node (bumpNode g node result)
      match node.parent with
      | none => some arena1
      | some p => bpGo g result fuel p arena1

/-- `MCTSTree::backpropagate`.  On a well-formed tree the parent chain
strictly descends, so `arena.length` steps of fuel always suffice. -/
def backpropagate {A S : Type} (g : GameIface A S) (t : MCTSTree A S)
    (current_node : Nat) (result : GameResult) : Option (MCTSTree A S) :=
  (bpGo g result t.arena.length current_node t.arena).map
    fun a => { t with arena := a }

/-- The parent chain from `current_node` up to and including the root,
with explicit fuel (same walk as `backpropagate`). -/
def chainGo {A S : Type} : Nat → Nat → List (MCTSNode A S) → Option (List Nat)
  | 0, _, _ => none
  | fuel + 1, current_node, arena =>
    match arena.get? current_node with
    | none => none
    | some node =>
      match node.parent with
      | none => some [current_node]
      | some p => (chainGo fuel p arena).map fun ch => current_node :: ch

/-- The parent chain of a node of a tree (fuel `arena.length`). -/
def parent_chain {A S : Type} (t : MCTSTree A S) (current_node : Nat) :
    Option (List Nat) :=
  chainGo t.arena.length current_node t.arena

/-- Outcome of a rollout: the returned result, the number of
`apply_action` calls performed, the last state examined, whether the
200-ply cap fired, and the list of states an action was applied from. -/
structure SimOut (S : Type) where
  res : GameResult
  apps : Nat
  final : S
  capped : Bool
  path : List S
deriving DecidableEq

/-- The rollout loop of `MCTSTree::simulate` with explicit fuel and the
`count` variable of the source.  `count` rises by one per iteration and the
loop stops once `count > 200`, so fuel `202` (used by `simulate`) can never
run out; the fuel-exhaustion branch is unreachable from `simulate`. -/
def simGo {A S : Type} (g : GameIface A S) (rng : Nat → Nat) :
    Nat → Nat → S → SimOut S
  | 0, _, s => { res := GameResult.Draw, apps := 0, final := s, capped := true, path := [] }
  | fuel + 1, count, s =>
    let actions := g.generate_legal_actions s
    if h : actions.length = 0 then
      { res := g.game_result s, apps := 0, final := s, capped := false, path := [] }
    else if g.status_with_moves_left s = false then
      { res := g.game_result s, apps := 0, final := s, capped := false, path := [] }
    else if 200 < count then
      { res := GameResult.Draw, apps := 0, final := s, capped := true, path := [] }
    else
      let random_number := rng count % actions.length
      let s2 := g.apply_action s
        (actions.get ⟨random_number, Nat.mod_lt _ (Nat.pos_of_ne_zero h)⟩)
      let out := simGo g rng fuel (count + 1) s2
      { res := out.res, apps := out.apps + 1, final := out.final,
        capped := out.capped, path := s :: out.path }

/-- `MCTSTree::simulate`: clone the node's state and roll out randomly.
`none` models the out-of-bounds panic on `node`. -/
def simulate {A S : Type} (g : GameIface A S) (t : MCTSTree A S)
    (node : Nat) (rng : Nat → Nat) : Option (SimOut S) :=
  (t.arena.get? node).map fun n => simGo g rng 202 0 n.game_state

/-- The parent back-link of node `i` (when present) points strictly below
`i`. -/
def parentOK {A S : Type} (arena : List (MCTSNode A S)) (i : Nat) : Bool :=
  match arena.get? i with
  | none => true
  | some node =>
    match node.parent with
    | none => true
    | some p => decide (p < i)

/-- Well-formedness of an arena: every parent back-link points strictly
below its child, as guaranteed by the append-only construction. -/
def wfArena {A S : Type} (arena : List (MCTSNode A S)) : Bool :=
  (List.range arena.length).all (parentOK arena)

/-- Runs a list of backpropagations in order (start node, rollout result);
`none` as soon as one of them panics. -/
def bpFold {A S : Type} (g : GameIface A S) :
    List (Nat × GameResult) → MCTSTree A S → Option (MCTSTree A S)
  | [], t => some t
  | c :: cs, t => (backpropagate g t c.1 c.2).bind (bpFold g cs)

/-- The tree-mutating operations a caller can run against a shared tree
(`select` and `simulate` do not mutate the tree). -/
inductive TreeOp where
  | exp (leaf : Nat) (r : Nat)
  | backprop (node : Nat) (res : GameResult)

/-- Runs one operation against the tree; a panicking call aborts, leaving
no tree, which the fold models by keeping the previous tree. -/
def applyOp {A S : Type} (g : GameIface A S) (t : MCTSTree A S) :
    TreeOp → MCTSTree A S
  | TreeOp.exp leaf r => ((expand g t leaf r).map Prod.fst).getD t
  | TreeOp.backprop node res => (backpropagate g t node res).getD t

/-! ### The chess collaborator (chess_env.rs), reduced to what the claims
read.  The `board`, `last_move` and `depth` fields live in the external
`chess` crate's types and are not consulted by `status_with_moves_left`,
the only chess function the claims are about. -/

/-- `ChessState`, restricted to the 50-move counter field. -/
structure ChessState where
  stalemate_50_move_counter : Nat
deriving DecidableEq

/-- `ChessState::status_with_moves_left`: false once the 50-move counter
has reached 50, true otherwise. -/
def ChessState.status_with_moves_left (s : ChessState) : Bool :=
  if 50 ≤ s.stalemate_50_move_counter then false else true

/-! ### The test double and the fixed 12-node example tree from the unit
tests of mcts.rs. -/

/-- `PlaceHolderState` from the mcts.rs tests. -/
structure PlaceHolderState where
  last_action_made : Nat
  depth_counter : Nat
deriving DecidableEq

/-- The `GameState` implementation of `PlaceHolderState`. -/
def phG : GameIface Nat PlaceHolderState where
  from_str := fun _ => { last_action_made := 0, depth_counter := 0 }
  apply_action := fun s a =>
    { last_action_made := a, depth_counter := s.depth_counter + 1 }
  status_with_moves_left := fun _ => false
  game_result := fun _ => GameResult.Draw
  generate_legal_actions := fun _ => []
  side_to_move := fun s => s.depth_counter % 2 = 0

/-- Shorthand for the hand-built nodes of the example tree. -/
def phNode (depth : Nat) (parent : Option Nat) (expanded : List Nat)
    (unexpanded : List Nat) (wins sims : Nat) : MCTSNode Nat PlaceHolderState :=
  { game_state := { last_action_made := 0, depth_counter := depth },
    parent := parent, expanded := expanded, unexpanded := unexpanded,
    wins := wins, draws := 0, sims := sims }

/-- `test_generate_example_tree` from mcts.rs: the fixed 12-node tree
(the root comes from `with_capacity` with its stats and children
overwritten; nodes 1-11 are pushed by hand). -/
def exampleTree : MCTSTree Nat PlaceHolderState :=
  { arena :=
      [phNode 0 none [1, 8] [] 5 12,
       phNode 1 (some 0) [2, 4, 5] [] 5 8,
       phNode 2 (some 1) [3] [] 1 2,
       phNode 3 (some 2) [] [10, 11] 1 1,
       phNode 2 (some 1) [] [] 0 1,
       phNode 2 (some 1) [6, 7] [] 2 4,
       phNode 3 (some 5) [] [] 0 1,
       phNode 3 (some 5) [] [] 2 2,
       phNode 1 (some 0) [9, 10] [] 2 4,
       phNode 2 (some 8) [] [] 1 1,
       phNode 2 (some 8) [11] [] 1 2,
       phNode 3 (some 10) [] [] 0 1],
    average_child_count := 10 }

/-- The example tree after `tree.arena[1].wins = 8` (second half of the
`test_select` scenario). -/
def exampleTree2 : MCTSTree Nat PlaceHolderState :=
  { exampleTree with
    arena := exampleTree.arena.set 1 (phNode 1 (some 0) [2, 4, 5] [] 8 8) }

/-! ### Concrete game states used as witness inputs. -/

/-- A conforming game that never ends: one legal action always available,
`status_with_moves_left` always true.  Exhibits the rollout cap. -/
def unitG : GameIface Unit Nat where
  from_str := fun _ => 0
  apply_action := fun s _ => s + 1
  status_with_moves_left := fun _ => true
  game_result := fun _ => GameResult.Draw
  generate_legal_actions := fun _ => [()]
  side_to_move := fun s => s % 2 = 0

/-- Tree over `unitG` holding just its root. -/
def unitTree : MCTSTree Unit Nat := with_capacity unitG 1 none "" 1

/-- A two-child tree whose children have equal UCT values: exercises the
tie-break of `get_max_uct_child`. -/
def tieTree : MCTSTree Nat PlaceHolderState :=
  { arena :=
      [phNode 0 none [1, 2] [] 0 1,
       phNode 1 (some 0) [] [] 1 1,
       phNode 1 (some 0) [] [] 1 1],
    average_child_count := 2 }

/-- A tree whose only expanded child has zero statistics: its UCT is NaN,
so the scan of `get_max_uct_child` never replaces the initial index 0. -/
def nanTree : MCTSTree Nat PlaceHolderState :=
  { arena :=
      [phNode 0 none [1] [] 5 12,
       phNode 1 (some 0) [] [] 0 0],
    average_child_count := 2 }

/-! ## Lemmas about the rollout loop (`simulate`) -/

/-- One-step unfolding of `simGo` when the loop condition fails because no
legal action remains. -/
lemma simGo_succ_noact {A S : Type} (g : GameIface A S) (rng : Nat → Nat)
    (fuel count : Nat) (s : S) (h1 : (g.generate_legal_actions s).length = 0) :
    simGo g rng (fuel + 1) count s =
      { res := g.game_result s, apps := 0, final := s, capped := false, path := [] } := by
  rw [simGo, dif_pos h1]

/-- One-step unfolding of `simGo` when `status_with_moves_left` is false. -/
lemma simGo_stop {A S : Type} (g : GameIface A S) (rng : Nat → Nat)
    (fuel count : Nat) (s : S) (h : g.status_with_moves_left s = false) :
    simGo g rng (fuel + 1) count s =
      { res := g.game_result s, apps := 0, final := s, capped := false, path := [] } := by
  by_cases h1 : (g.generate_legal_actions s).length = 0
  · exact simGo_succ_noact g rng fuel count s h1
  · rw [simGo, dif_neg h1, if_pos h]

/-- One-step unfolding of `simGo` when the 200-ply cap fires. -/
lemma simGo_succ_cap {A S : Type} (g : GameIface A S) (rng : Nat → Nat)
    (fuel count : Nat) (s : S) (h1 : (g.generate_legal_actions s).length ≠ 0)
    (h2 : g.status_with_moves_left s = true) (h3 : 200 < count) :
    simGo g rng (fuel + 1) count s =
      { res := GameResult.Draw, apps := 0, final := s, capped := true, path := [] } := by
  rw [simGo, dif_neg h1, if_neg (by rw [h2]; exact fun hc => Bool.noConfusion hc),
    if_pos h3]

/-- One-step unfolding of `simGo` when an action is applied. -/
lemma simGo_succ_step {A S : Type} (g : GameIface A S) (rng : Nat → Nat)
    (fuel count : Nat) (s : S) (h1 : (g.generate_legal_actions s).length ≠ 0)
    (h2 : g.status_with_moves_left s = true) (h3 : ¬ 200 < count) :
    simGo g rng (fuel + 1) count s =
      { res := (simGo g rng fuel (count + 1)
          (g.apply_action s ((g.generate_legal_actions s).get
            ⟨rng count % (g.generate_legal_actions s).length,
             Nat.mod_lt _ (Nat.pos_of_ne_zero h1)⟩))).res,
        apps := (simGo g rng fuel (count + 1)
          (g.apply_action s ((g.generate_legal_actions s).get
            ⟨rng count % (g.generate_legal_actions s).length,
             Nat.mod_lt _ (Nat.pos_of_ne_zero h1)⟩))).apps + 1,
        final := (simGo g rng fuel (count + 1)
          (g.apply_action s ((g.generate_legal_actions s).get
            ⟨rng count % (g.generate_legal_actions s).length,
             Nat.mod_lt _ (Nat.pos_of_ne_zero h1)⟩))).final,
        capped := (simGo g rng fuel (count + 1)
          (g.apply_action s ((g.generate_legal_actions s).get
            ⟨rng count % (g.generate_legal_actions s).length,
             Nat.mod_lt _ (Nat.pos_of_ne_zero h1)⟩))).capped,
        path := s :: (simGo g rng fuel (count + 1)
          (g.apply_action s ((g.generate_legal_actions s).get
            ⟨rng count % (g.generate_legal_actions s).length,
             Nat.mod_lt _ (Nat.pos_of_ne_zero h1)⟩))).path } := by
  rw [simGo, dif_neg h1, if_neg (by rw [h2]; exact fun hc => Bool.noConfusion hc),
    if_neg h3]

lemma simGo_path_length {A S : Type} (g : GameIface A S) (rng : Nat → Nat) :
    ∀ fuel count s, (simGo g rng fuel count s).path.length = (simGo g rng fuel count s).apps := by
  intro fuel
  induction fuel with
  | zero => intro count s; rfl
  | succ n ih =>
    intro count s
    by_cases h1 : (g.generate_legal_actions s).length = 0
    · rw [simGo_succ_noact g rng n count s h1]; rfl
    · by_cases h2 : g.status_with_moves_left s = true
      · by_cases h3 : 200 < count
        · rw [simGo_succ_cap g rng n count s h1 h2 h3]; rfl
        · rw [simGo_succ_step g rng n count s h1 h2 h3]
          simp [ih]
      · rw [simGo_stop g rng n count s (Bool.not_eq_true _ |>.mp h2)]; rfl



lemma simGo_apps_le {A S : Type} (g : GameIface A S) (rng : Nat → Nat) :
    ∀ fuel count s, (simGo g rng fuel count s).apps ≤ 201 - count := by
  intro fuel
  induction fuel with
  | zero => intro count s; exact Nat.zero_le _
  | succ n ih =>
    intro count s
    by_cases h1 : (g.generate_legal_actions s).length = 0
    · rw [simGo_succ_noact g rng n count s h1]; exact Nat.zero_le _
    · by_cases h2 : g.status_with_moves_left s = true
      · by_cases h3 : 200 < count
        · rw [simGo_succ_cap g rng n count s h1 h2 h3]; exact Nat.zero_le _
        · rw [simGo_succ_step g rng n count s h1 h2 h3]
          have := ih (count + 1)
            (g.apply_action s ((g.generate_legal_actions s).get
              ⟨rng count % (g.generate_legal_actions s).length,
               Nat.mod_lt _ (Nat.pos_of_ne_zero h1)⟩))
          simp only []
          omega
      · rw [simGo_stop g rng n count s (Bool.not_eq_true _ |>.mp h2)]
        exact Nat.zero_le _

lemma simGo_capped_draw {A S : Type} (g : GameIface A S) (rng : Nat → Nat) :
    ∀ fuel count s, (simGo g rng fuel count s).capped = true →
      (simGo g rng fuel count s).res = GameResult.Draw := by
  intro fuel
  induction fuel with
  | zero => intro count s _; rfl
  | succ n ih =>
    intro count s
    by_cases h1 : (g.generate_legal_actions s).length = 0
    · rw [simGo_succ_noact g rng n count s h1]; intro hc; exact absurd hc (by simp)
    · by_cases h2 : g.status_with_moves_left s = true
      · by_cases h3 : 200 < count
        · rw [simGo_succ_cap g rng n count s h1 h2 h3]; intro _; rfl
        · rw [simGo_succ_step g rng n count s h1 h2 h3]
          exact ih _ _
      · rw [simGo_stop g rng n count s (Bool.not_eq_true _ |>.mp h2)]
        intro hc; exact absurd hc (by simp)

lemma simGo_end {A S : Type} (g : GameIface A S) (rng : Nat → Nat) :
    ∀ fuel count s, (simGo g rng fuel count s).capped = false →
      (simGo g rng fuel count s).res = g.game_result (simGo g rng fuel count s).final ∧
      (g.generate_legal_actions (simGo g rng fuel count s).final = [] ∨
        g.status_with_moves_left (simGo g rng fuel count s).final = false) := by
  intro fuel
  induction fuel with
  | zero => intro count s h; exact absurd h (by simp [simGo])
  | succ n ih =>
    intro count s
    by_cases h1 : (g.generate_legal_actions s).length = 0
    · rw [simGo_succ_noact g rng n count s h1]
      exact fun _ => ⟨rfl, Or.inl (List.length_eq_zero.mp h1)⟩
    · by_cases h2 : g.status_with_moves_left s = true
      · by_cases h3 : 200 < count
        · rw [simGo_succ_cap g rng n count s h1 h2 h3]
          intro hc; exact absurd hc (by simp)
        · rw [simGo_succ_step g rng n count s h1 h2 h3]
          exact ih _ _
      · rw [simGo_stop g rng n count s (Bool.not_eq_true _ |>.mp h2)]
        exact fun _ => ⟨rfl, Or.inr (Bool.not_eq_true _ |>.mp h2)⟩

lemma simGo_path_ok {A S : Type} (g : GameIface A S) (rng : Nat → Nat) :
    ∀ fuel count s, ∀ s1 ∈ (simGo g rng fuel count s).path,
      g.generate_legal_actions s1 ≠ [] ∧ g.status_with_moves_left s1 = true := by
  intro fuel
  induction fuel with
  | zero => intro count s s1 h; exact absurd h (by simp [simGo])
  | succ n ih =>
    intro count s
    by_cases h1 : (g.generate_legal_actions s).length = 0
    · rw [simGo_succ_noact g rng n count s h1]; intro s1 h; exact absurd h (by simp)
    · by_cases h2 : g.status_with_moves_left s = true
      · by_cases h3 : 200 < count
        · rw [simGo_succ_cap g rng n count s h1 h2 h3]
          intro s1 h; exact absurd h (by simp)
        · rw [simGo_succ_step g rng n count s h1 h2 h3]
          intro s1 hs1
          rcases List.mem_cons.mp hs1 with h | h
          · subst h
            exact ⟨fun hc => h1 (by simp [hc]), h2⟩
          · exact ih _ _ s1 h
      · rw [simGo_stop g rng n count s (Bool.not_eq_true _ |>.mp h2)]
        intro s1 h; exact absurd h (by simp)

/-- C1 (amended): `simulate` performs at most 201 applications of
`apply_action` (the `count > 200` cap fires only after the 201st
application); when the cap fires the result is `Draw`, and otherwise the
result equals `result()` of the final state reached, which is the first
state along the rollout with no legal actions or with
`status_with_moves_left()` false (every earlier state on the path had a
legal action and a true status). -/
theorem simulate_rollout_cap {A S : Type} (g : GameIface A S) (t : MCTSTree A S)
    (node : Nat) (rng : Nat → Nat) (nd : MCTSNode A S)
    (h : t.arena.get? node = some nd) :
    ∃ out, simulate g t node rng = some out ∧
      out.apps ≤ 201 ∧ out.path.length = out.apps ∧
      (out.capped = true → out.res = GameResult.Draw) ∧
      (out.capped = false →
        out.res = g.game_result out.final ∧
        (g.generate_legal_actions out.final = [] ∨
          g.status_with_moves_left out.final = false)) ∧
      (∀ s ∈ out.path, g.generate_legal_actions s ≠ [] ∧
        g.status_with_moves_left s = true) := by
  refine ⟨simGo g rng 202 0 nd.game_state, by unfold simulate; rw [h]; rfl, ?_, ?_, ?_, ?_, ?_⟩
  · simpa using simGo_apps_le g rng 202 0 nd.game_state
  · exact simGo_path_length g rng 202 0 nd.game_state
  · exact simGo_capped_draw g rng 202 0 nd.game_state
  · exact simGo_end g rng 202 0 nd.game_state
  · exact simGo_path_ok g rng 202 0 nd.game_state

/-- C1 witness: the cap theorem applied to the one-node tree over the
never-ending game. -/
theorem simulate_rollout_cap_wit :
    ∃ out, simulate unitG unitTree 0 (fun _ => 0) = some out ∧
      out.apps ≤ 201 ∧ out.path.length = out.apps ∧
      (out.capped = true → out.res = GameResult.Draw) ∧
      (out.capped = false →
        out.res = unitG.game_result out.final ∧
        (unitG.generate_legal_actions out.final = [] ∨
          unitG.status_with_moves_left out.final = false)) ∧
      (∀ s ∈ out.path, unitG.generate_legal_actions s ≠ [] ∧
        unitG.status_with_moves_left s = true) :=
  simulate_rollout_cap unitG unitTree 0 (fun _ => 0)
    { game_state := 0, parent := none, expanded := [], unexpanded := [()],
      wins := 0, draws := 0, sims := 0 } rfl

set_option maxRecDepth 4000 in
/-- C1 counterexample: on the never-ending game the rollout performs
exactly 201 applications of `apply_action` before the cap fires, so
"never more than 200 applications" fails on the code. -/
theorem simulate_rollout_cap_cex :
    (simulate unitG unitTree 0 (fun _ => 0)).map SimOut.apps = some 201 ∧
      ¬ (201 ≤ 200) := by
  exact ⟨rfl, by decide⟩

/-- C8 (amended): given legal moves remain, `status_with_moves_left`
returns FALSE exactly when the game must be treated as ended — for the
chess collaborator, false exactly when the 50-move counter has reached its
threshold of 50 (true means play continues) — and the engine's rollout
loop stops and returns `result()` of the current state as soon as
`status_with_moves_left()` is false. -/
theorem chess_status_threshold :
    (∀ s : ChessState,
      s.status_with_moves_left = false ↔ 50 ≤ s.stalemate_50_move_counter) ∧
    (∀ (A S : Type) (g : GameIface A S) (rng : Nat → Nat) (fuel count : Nat) (s : S),
      g.status_with_moves_left s = false →
      simGo g rng (fuel + 1) count s =
        { res := g.game_result s, apps := 0, final := s, capped := false,
          path := [] }) := by
  constructor
  · intro s
    unfold ChessState.status_with_moves_left
    split_ifs with h <;> simp [h]
  · intro A S g rng fuel count s h
    exact simGo_stop g rng fuel count s h

/-- C8 witness: the threshold equivalence at counter 50 and the
early-stop rule on the placeholder game (whose status is always false). -/
theorem chess_status_threshold_wit :
    ((ChessState.mk 50).status_with_moves_left = false ↔ 50 ≤ 50) ∧
      simGo phG (fun _ => 0) 1 0 { last_action_made := 0, depth_counter := 0 } =
        { res := GameResult.Draw, apps := 0,
          final := { last_action_made := 0, depth_counter := 0 },
          capped := false, path := [] } :=
  ⟨chess_status_threshold.1 (ChessState.mk 50),
   chess_status_threshold.2 Nat PlaceHolderState phG (fun _ => 0) 0 0
     { last_action_made := 0, depth_counter := 0 } rfl⟩

/-- C8 counterexample: at the threshold (counter = 50) the code returns
false, not true as the claim states. -/
theorem chess_status_threshold_cex :
    ¬ ((ChessState.mk 50).status_with_moves_left = true) := by
  decide

/-! ## Lemmas about `bumpNode`, the parent chain and `backpropagate` -/

lemma bumpNode_parent {A S : Type} (g : GameIface A S) (nd : MCTSNode A S)
    (r : GameResult) : (bumpNode g nd r).parent = nd.parent := by
  unfold bumpNode; dsimp only; split_ifs <;> rfl

lemma bumpNode_game_state {A S : Type} (g : GameIface A S) (nd : MCTSNode A S)
    (r : GameResult) : (bumpNode g nd r).game_state = nd.game_state := by
  unfold bumpNode; dsimp only; split_ifs <;> rfl

lemma bumpNode_expanded {A S : Type} (g : GameIface A S) (nd : MCTSNode A S)
    (r : GameResult) : (bumpNode g nd r).expanded = nd.expanded := by
  unfold bumpNode; dsimp only; split_ifs <;> rfl

lemma bumpNode_unexpanded {A S : Type} (g : GameIface A S) (nd : MCTSNode A S)
    (r : GameResult) : (bumpNode g nd r).unexpanded = nd.unexpanded := by
  unfold bumpNode; dsimp only; split_ifs <;> rfl

lemma bumpNode_sims {A S : Type} (g : GameIface A S) (nd : MCTSNode A S)
    (r : GameResult) : (bumpNode g nd r).sims = nd.sims + 1 := by
  unfold bumpNode; dsimp only; split_ifs <;> rfl

lemma bumpNode_draws {A S : Type} (g : GameIface A S) (nd : MCTSNode A S)
    (r : GameResult) :
    (bumpNode g nd r).draws = nd.draws + (if r = GameResult.Draw then 1 else 0) := by
  unfold bumpNode; dsimp only; split_ifs <;> simp_all

lemma bumpNode_wins {A S : Type} (g : GameIface A S) (nd : MCTSNode A S)
    (r : GameResult) :
    (bumpNode g nd r).wins = nd.wins +
      (if r ≠ GameResult.Draw ∧
          ((r = GameResult.FirstPlayerWin) ↔ g.side_to_move nd.game_state = false)
       then 1 else 0) := by
  cases r <;> cases hb : g.side_to_move nd.game_state <;>
    simp [bumpNode, hb]

lemma bumpNode_inv {A S : Type} (g : GameIface A S) (nd : MCTSNode A S)
    (r : GameResult) (h : nd.wins + nd.draws ≤ nd.sims) :
    (bumpNode g nd r).wins + (bumpNode g nd r).draws ≤ (bumpNode g nd r).sims := by
  rw [bumpNode_wins, bumpNode_draws, bumpNode_sims]
  split_ifs with h1 h2
  · exact absurd h2 h1.1
  all_goals omega

lemma get?_set_self {α : Type} {l : List α} {i : Nat} (x : α) (h : i < l.length) :
    (l.set i x).get? i = some x := by
  rw [List.get?_set_eq, List.get?_eq_get h]; rfl

lemma wfArena_spec {A S : Type} {a : List (MCTSNode A S)} (hw : wfArena a = true)
    {i : Nat} {nd : MCTSNode A S} (h : a.get? i = some nd) {p : Nat}
    (hp : nd.parent = some p) : p < i := by
  obtain ⟨hi, -⟩ := List.get?_eq_some.mp h
  have hall := List.all_eq_true.mp hw i (List.mem_range.mpr hi)
  unfold parentOK at hall
  rw [h] at hall
  simp only [hp] at hall
  exact of_decide_eq_true hall

lemma parentOK_congr {A S : Type} {a b : List (MCTSNode A S)}
    (hpar : ∀ i, (a.get? i).map (fun nd => nd.parent) =
      (b.get? i).map (fun nd => nd.parent)) (i : Nat) :
    parentOK a i = parentOK b i := by
  have h := hpar i
  unfold parentOK
  cases ha : a.get? i <;> cases hb : b.get? i <;> rw [ha, hb] at h
  · simp at h
  · simp at h
  · simp only [Option.map_some', Option.some.injEq] at h
    simp only [h]

lemma wfArena_congr {A S : Type} {a b : List (MCTSNode A S)}
    (hlen : a.length = b.length)
    (hpar : ∀ i, (a.get? i).map (fun nd => nd.parent) =
      (b.get? i).map (fun nd => nd.parent)) :
    wfArena a = wfArena b := by
  unfold wfArena
  rw [hlen]
  congr 1
  funext i
  exact parentOK_congr hpar i

lemma set_bump_parents {A S : Type} (g : GameIface A S) (r : GameResult)
    {a : List (MCTSNode A S)} {cur : Nat} {nd : MCTSNode A S}
    (hnd : a.get? cur = some nd) :
    ∀ i, ((a.set cur (bumpNode g nd r)).get? i).map (fun x => x.parent) =
      (a.get? i).map (fun x => x.parent) := by
  intro i
  by_cases hic : i = cur
  · subst hic
    obtain ⟨hi, -⟩ := List.get?_eq_some.mp hnd
    rw [get?_set_self _ hi, hnd]
    simp [bumpNode_parent]
  · rw [List.get?_set_ne _ _ (fun hc => hic hc.symm)]

lemma chainGo_congr {A S : Type} :
    ∀ (fuel cur : Nat) (a b : List (MCTSNode A S)),
      (∀ i, (a.get? i).map (fun nd => nd.parent) =
        (b.get? i).map (fun nd => nd.parent)) →
      chainGo fuel cur a = chainGo fuel cur b := by
  intro fuel
  induction fuel with
  | zero => intro cur a b _; rfl
  | succ f ih =>
    intro cur a b hpar
    have h := hpar cur
    cases ha : a.get? cur with
    | none =>
      cases hb : b.get? cur with
      | none => simp only [chainGo, ha, hb]
      | some y => rw [ha, hb] at h; simp at h
    | some x =>
      cases hb : b.get? cur with
      | none => rw [ha, hb] at h; simp at h
      | some y =>
        rw [ha, hb] at h
        simp only [Option.map_some', Option.some.injEq] at h
        simp only [chainGo, ha, hb, h]
        cases hyp : y.parent with
        | none => rfl
        | some p => dsimp only; rw [ih p a b hpar]

lemma chainGo_le {A S : Type} :
    ∀ (fuel cur : Nat) (a : List (MCTSNode A S)) (ch : List Nat),
      wfArena a = true → chainGo fuel cur a = some ch → ∀ j ∈ ch, j ≤ cur := by
  intro fuel
  induction fuel with
  | zero => intro cur a ch _ h; exact absurd h (by simp [chainGo])
  | succ f ih =>
    intro cur a ch hw h
    cases hnd : a.get? cur with
    | none => rw [chainGo, hnd] at h; exact absurd h (by simp)
    | some nd =>
      cases hp : nd.parent with
      | none =>
        simp only [chainGo, hnd, hp, Option.some.injEq] at h
        subst h
        intro j hj
        simp only [List.mem_singleton] at hj
        omega
      | some p =>
        simp only [chainGo, hnd, hp] at h
        obtain ⟨chp, hchp, rfl⟩ := Option.map_eq_some'.mp h
        intro j hj
        rcases List.mem_cons.mp hj with rfl | hj
        · exact Nat.le_refl _
        · have := ih p a chp hw hchp j hj
          have hpc := wfArena_spec hw hnd hp
          omega

lemma chainGo_mem {A S : Type} {fuel cur : Nat} {a : List (MCTSNode A S)}
    {ch : List Nat} (h : chainGo fuel cur a = some ch) : cur ∈ ch := by
  cases fuel with
  | zero => exact absurd h (by simp [chainGo])
  | succ f =>
    cases hnd : a.get? cur with
    | none => rw [chainGo, hnd] at h; exact absurd h (by simp)
    | some nd =>
      cases hp : nd.parent with
      | none =>
        simp only [chainGo, hnd, hp, Option.some.injEq] at h
        subst h; exact List.mem_singleton.mpr rfl
      | some p =>
        simp only [chainGo, hnd, hp] at h
        obtain ⟨chp, _, rfl⟩ := Option.map_eq_some'.mp h
        exact List.mem_cons_self _ _

lemma chainGo_some {A S : Type} :
    ∀ (cur : Nat) (a : List (MCTSNode A S)) (fuel : Nat),
      wfArena a = true → cur < a.length → cur + 1 ≤ fuel →
      ∃ ch, chainGo fuel cur a = some ch := by
  intro cur
  induction cur using Nat.strong_induction_on with
  | _ cur ih =>
    intro a fuel hw hlt hfuel
    obtain ⟨f, rfl⟩ : ∃ f, fuel = f + 1 := ⟨fuel - 1, by omega⟩
    cases hnd : a.get? cur with
    | none =>
      have := List.get?_eq_none.mp hnd
      omega
    | some nd =>
      cases hp : nd.parent with
      | none => exact ⟨[cur], by simp only [chainGo, hnd, hp]⟩
      | some p =>
        have hpc : p < cur := wfArena_spec hw hnd hp
        obtain ⟨chp, hchp⟩ := ih p hpc a f hw (by omega) (by omega)
        exact ⟨cur :: chp, by simp only [chainGo, hnd, hp, hchp, Option.map_some']⟩

lemma bpGo_spec {A S : Type} (g : GameIface A S) (r : GameResult) :
    ∀ (cur : Nat) (a : List (MCTSNode A S)) (fuel : Nat),
      wfArena a = true → cur < a.length → cur + 1 ≤ fuel →
      ∀ ch, chainGo fuel cur a = some ch →
      ∃ a1, bpGo g r fuel cur a = some a1 ∧
        ∀ i, a1.get? i = (a.get? i).map
          (fun nd => if i ∈ ch then bumpNode g nd r else nd) := by
  intro cur
  induction cur using Nat.strong_induction_on with
  | _ cur ih =>
    intro a fuel hw hlt hfuel ch hch
    obtain ⟨f, rfl⟩ : ∃ f, fuel = f + 1 := ⟨fuel - 1, by omega⟩
    cases hnd : a.get? cur with
    | none =>
      have := List.get?_eq_none.mp hnd
      omega
    | some nd =>
      cases hp : nd.parent with
      | none =>
        simp only [chainGo, hnd, hp, Option.some.injEq] at hch
        subst hch
        refine ⟨a.set cur (bumpNode g nd r), by simp only [bpGo, hnd, hp], ?_⟩
        intro i
        by_cases hic : i = cur
        · subst hic
          rw [get?_set_self _ hlt, hnd]
          simp
        · rw [List.get?_set_ne _ _ (fun hc => hic hc.symm)]
          cases hai : a.get? i with
          | none => rfl
          | some x =>
            simp only [Option.map_some', Option.some.injEq]
            simp [List.mem_singleton, hic]
      | some p =>
        simp only [chainGo, hnd, hp] at hch
        obtain ⟨chp, hchp, rfl⟩ := Option.map_eq_some'.mp hch
        have hpc : p < cur := wfArena_spec hw hnd hp
        have hcur_notin : cur ∉ chp := by
          intro hc
          have := chainGo_le f p a chp hw hchp cur hc
          omega
        set a1 := a.set cur (bumpNode g nd r) with ha1
        have hlen1 : a1.length = a.length := List.length_set a cur _
        have hpar1 : ∀ i, (a1.get? i).map (fun x => x.parent) =
            (a.get? i).map (fun x => x.parent) := set_bump_parents g r hnd
        have hw1 : wfArena a1 = true := by
          rw [wfArena_congr hlen1 hpar1]; exact hw
        have hch1 : chainGo f p a1 = some chp := by
          rw [chainGo_congr f p a1 a hpar1]; exact hchp
        obtain ⟨a2, hbp2, hpt2⟩ :=
          ih p hpc a1 f hw1 (by omega) (by omega) chp hch1
        refine ⟨a2, ?_, ?_⟩
        · simp only [bpGo, hnd, hp]
          exact hbp2
        · intro i
          by_cases hic : i = cur
          · subst hic
            rw [hpt2 i, get?_set_self _ hlt]
            simp only [Option.map_some', if_neg hcur_notin]
            rw [hnd]
            simp only [Option.map_some', Option.some.injEq]
            rw [if_pos (List.mem_cons_self _ _)]
          · rw [hpt2 i, List.get?_set_ne _ _ (fun hc => hic hc.symm)]
            cases hai : a.get? i with
            | none => rfl
            | some x =>
              simp only [Option.map_some', Option.some.injEq]
              simp [List.mem_cons, hic]

lemma bpGo_frame {A S : Type} (g : GameIface A S) (r : GameResult) :
    ∀ (fuel cur : Nat) (a a1 : List (MCTSNode A S)),
      bpGo g r fuel cur a = some a1 →
      a1.length = a.length ∧
      ∀ i, (a1.get? i).map (fun nd => nd.parent) =
        (a.get? i).map (fun nd => nd.parent) := by
  intro fuel
  induction fuel with
  | zero => intro cur a a1 h; exact absurd h (by simp [bpGo])
  | succ f ih =>
    intro cur a a1 h
    cases hnd : a.get? cur with
    | none => rw [bpGo, hnd] at h; exact absurd h (by simp)
    | some nd =>
      cases hp : nd.parent with
      | none =>
        simp only [bpGo, hnd, hp, Option.some.injEq] at h
        subst h
        exact ⟨List.length_set a cur _, set_bump_parents g r hnd⟩
      | some p =>
        simp only [bpGo, hnd, hp] at h
        obtain ⟨hlen2, hpar2⟩ := ih p (a.set cur (bumpNode g nd r)) a1 h
        refine ⟨hlen2.trans (List.length_set a cur _), fun i => ?_⟩
        exact (hpar2 i).trans (set_bump_parents g r hnd i)

lemma bpGo_inv {A S : Type} (g : GameIface A S) (r : GameResult) :
    ∀ (fuel cur : Nat) (a a1 : List (MCTSNode A S)),
      (∀ i nd, a.get? i = some nd → nd.wins + nd.draws ≤ nd.sims) →
      bpGo g r fuel cur a = some a1 →
      ∀ i nd, a1.get? i = some nd → nd.wins + nd.draws ≤ nd.sims := by
  intro fuel
  induction fuel with
  | zero => intro cur a a1 _ h; exact absurd h (by simp [bpGo])
  | succ f ih =>
    intro cur a a1 hinv h
    have hset : ∀ nd, a.get? cur = some nd →
        ∀ i x, (a.set cur (bumpNode g nd r)).get? i = some x →
          x.wins + x.draws ≤ x.sims := by
      intro nd hnd i x hx
      by_cases hic : i = cur
      · subst hic
        obtain ⟨hi, -⟩ := List.get?_eq_some.mp hnd
        rw [get?_set_self _ hi] at hx
        obtain rfl := Option.some.inj hx
        exact bumpNode_inv g nd r (hinv _ nd hnd)
      · rw [List.get?_set_ne _ _ (fun hc => hic hc.symm)] at hx
        exact hinv i x hx
    cases hnd : a.get? cur with
    | none => rw [bpGo, hnd] at h; exact absurd h (by simp)
    | some nd =>
      cases hp : nd.parent with
      | none =>
        simp only [bpGo, hnd, hp, Option.some.injEq] at h
        subst h
        exact hset nd hnd
      | some p =>
        simp only [bpGo, hnd, hp] at h
        exact ih p (a.set cur (bumpNode g nd r)) a1 (hset nd hnd) h

/-! ## Lemmas about `expand` -/

lemma expand_terminal {A S : Type} (g : GameIface A S) (t : MCTSTree A S)
    (leaf : Nat) (r : Nat) (nd : MCTSNode A S)
    (h : t.arena.get? leaf = some nd) (hu : nd.unexpanded = []) :
    expand g t leaf r = some (t, leaf) := by
  unfold expand
  rw [h]
  dsimp only
  rw [dif_pos (by simp [hu])]

lemma expand_spec {A S : Type} (g : GameIface A S) (t : MCTSTree A S)
    (leaf : Nat) (r : Nat) (nd : MCTSNode A S)
    (h : t.arena.get? leaf = some nd) (hu : nd.unexpanded.length ≠ 0) :
    ∃ hidx : r % nd.unexpanded.length < nd.unexpanded.length,
    expand g t leaf r = some
      ({ t with arena := ((t.arena ++
          [MCTSNode.mk
             (g.apply_action nd.game_state
               (nd.unexpanded.get ⟨r % nd.unexpanded.length, hidx⟩))
             (some leaf) []
             (g.generate_legal_actions (g.apply_action nd.game_state
               (nd.unexpanded.get ⟨r % nd.unexpanded.length, hidx⟩)))
             0 0 0]).set leaf
          ({ nd with
             unexpanded := nd.unexpanded.eraseIdx (r % nd.unexpanded.length),
             expanded := nd.expanded ++ [t.arena.length] })) },
       t.arena.length) := by
  refine ⟨Nat.mod_lt _ (Nat.pos_of_ne_zero hu), ?_⟩
  unfold expand
  rw [h]
  dsimp only
  rw [dif_neg hu]

lemma expand_get {A S : Type} (g : GameIface A S) (t : MCTSTree A S)
    (leaf : Nat) (r : Nat) (nd : MCTSNode A S)
    (h : t.arena.get? leaf = some nd) (hu : nd.unexpanded.length ≠ 0) :
    ∃ (t1 : MCTSTree A S) (hidx : r % nd.unexpanded.length < nd.unexpanded.length),
      expand g t leaf r = some (t1, t.arena.length) ∧
      t1.arena.length = t.arena.length + 1 ∧
      t1.average_child_count = t.average_child_count ∧
      t1.arena.get? t.arena.length = some
        { game_state := g.apply_action nd.game_state
            (nd.unexpanded.get ⟨r % nd.unexpanded.length, hidx⟩),
          parent := some leaf, expanded := [],
          unexpanded := g.generate_legal_actions (g.apply_action nd.game_state
            (nd.unexpanded.get ⟨r % nd.unexpanded.length, hidx⟩)),
          wins := 0, draws := 0, sims := 0 } ∧
      t1.arena.get? leaf = some
        { nd with
          unexpanded := nd.unexpanded.eraseIdx (r % nd.unexpanded.length),
          expanded := nd.expanded ++ [t.arena.length] } ∧
      (∀ j, j ≠ leaf → j ≠ t.arena.length → t1.arena.get? j = t.arena.get? j) := by
  obtain ⟨hidx, hexp⟩ := expand_spec g t leaf r nd h hu
  have hleaf_lt : leaf < t.arena.length := (List.get?_eq_some.mp h).1
  have hleaf_ne : leaf ≠ t.arena.length := Nat.ne_of_lt hleaf_lt
  refine ⟨_, hidx, hexp, ?_, rfl, ?_, ?_, ?_⟩
  · simp [List.length_set, List.length_append]
  · rw [List.get?_set_ne _ _ hleaf_ne]
    exact List.get?_concat_length _ _
  · exact get?_set_self _ (by simp [List.length_append]; omega)
  · intro j hj1 hj2
    rw [List.get?_set_ne _ _ (fun hc => hj1 hc.symm)]
    rcases Nat.lt_or_ge j t.arena.length with hlt | hge
    · exact List.get?_append hlt
    · have hge1 : t.arena.length + 1 ≤ j := by omega
      rw [List.get?_eq_none.mpr (by simp [List.length_append]; omega),
        List.get?_eq_none.mpr (by omega)]

/-! ## Claim C2: backpropagation walks the parent chain -/

/-- C2: `backpropagate(n, r)` updates exactly the nodes on the parent
chain from `n` to the root (inclusive): each visited node gets `sims + 1`,
`draws + 1` iff `r` is a draw, and `wins + 1` iff `(r == FirstPlayerWin)`
agrees with `!side_to_move()` of that node's state; every node off the
chain is untouched.  On the fixed 12-node example tree,
`backpropagate(node 0, SecondPlayerWin)` raises the root's wins from 5 to
6 and its sims from 12 to 13. -/
theorem backpropagate_chain_update :
    (∀ (A S : Type) (g : GameIface A S) (t : MCTSTree A S) (start : Nat)
        (r : GameResult),
      wfArena t.arena = true → start < t.arena.length →
      ∃ ch t1, parent_chain t start = some ch ∧ start ∈ ch ∧
        backpropagate g t start r = some t1 ∧
        (∀ i, t1.arena.get? i = (t.arena.get? i).map
          (fun nd => if i ∈ ch then bumpNode g nd r else nd)) ∧
        (∀ nd : MCTSNode A S,
          (bumpNode g nd r).sims = nd.sims + 1 ∧
          (bumpNode g nd r).draws = nd.draws +
            (if r = GameResult.Draw then 1 else 0) ∧
          (bumpNode g nd r).wins = nd.wins +
            (if r ≠ GameResult.Draw ∧
                ((r = GameResult.FirstPlayerWin) ↔
                  g.side_to_move nd.game_state = false)
             then 1 else 0))) ∧
    ((backpropagate phG exampleTree 0 GameResult.SecondPlayerWin).map
        (fun t1 => (t1.arena.get? 0).map fun nd => (nd.wins, nd.sims)) =
      some (some (6, 13))) := by
  constructor
  · intro A S g t start r hw hlt
    obtain ⟨ch, hch⟩ := chainGo_some start t.arena t.arena.length hw hlt (by omega)
    obtain ⟨a1, hbp, hpt⟩ :=
      bpGo_spec g r start t.arena t.arena.length hw hlt (by omega) ch hch
    refine ⟨ch, { t with arena := a1 }, hch, chainGo_mem hch, ?_, hpt, ?_⟩
    · unfold backpropagate
      rw [hbp]
      rfl
    · intro nd
      exact ⟨bumpNode_sims g nd r, bumpNode_draws g nd r, bumpNode_wins g nd r⟩
  · rfl

/-- C2 witness: the chain-update theorem applied to node 6 of the example
tree. -/
theorem backpropagate_chain_update_wit :
    ∃ ch, parent_chain exampleTree 6 = some ch ∧ 6 ∈ ch := by
  obtain ⟨ch, t1, h1, h2, -, -, -⟩ :=
    backpropagate_chain_update.1 Nat PlaceHolderState phG exampleTree 6
      GameResult.SecondPlayerWin (by decide) (by decide)
  exact ⟨ch, h1, h2⟩

/-! ## Claims C5 and C6: expansion -/

lemma perm_get_eraseIdx {α : Type} (l : List α) (i : Nat) (h : i < l.length) :
    l.Perm (l.get ⟨i, h⟩ :: l.eraseIdx i) := by
  induction l generalizing i with
  | nil => simp at h
  | cons x xs ih =>
    cases i with
    | zero => simp
    | succ j =>
      simp only [List.eraseIdx_cons_succ, List.get]
      exact (List.Perm.cons x (ih j (by simpa using h))).trans (List.Perm.swap _ _ _)

lemma expandRun_spec {A S : Type} (g : GameIface A S) (leaf : Nat) :
    ∀ (rs : List Nat) (t : MCTSTree A S) (nd : MCTSNode A S),
      t.arena.get? leaf = some nd → rs.length ≤ nd.unexpanded.length →
      ∃ nd1, (expandRun g leaf rs t).1.arena.get? leaf = some nd1 ∧
        nd1.unexpanded.length = nd.unexpanded.length - rs.length ∧
        (expandRun g leaf rs t).2.length = rs.length ∧
        ((nd1.unexpanded : Multiset A) + ((expandRun g leaf rs t).2 : Multiset A) =
          (nd.unexpanded : Multiset A)) := by
  intro rs
  induction rs with
  | nil =>
    intro t nd h _
    exact ⟨nd, h, by simp [expandRun], by simp [expandRun], by simp [expandRun]⟩
  | cons r rs ih =>
    intro t nd h hlen
    have hu : nd.unexpanded.length ≠ 0 := by
      simp only [List.length_cons] at hlen
      omega
    obtain ⟨t1, hidx, hexp, hlen1, havg, hnew, hleaf1, hframe⟩ := expand_get g t leaf r nd h hu
    have hchosen : ((t.arena.get? leaf).bind fun node =>
        if hq : node.unexpanded.length = 0 then none
        else some (node.unexpanded.get
          ⟨r % node.unexpanded.length, Nat.mod_lt _ (Nat.pos_of_ne_zero hq)⟩))
        = some (nd.unexpanded.get ⟨r % nd.unexpanded.length, hidx⟩) := by
      rw [h, Option.some_bind, dif_neg hu]
    have hrun : expandRun g leaf (r :: rs) t =
        ((expandRun g leaf rs t1).1,
          nd.unexpanded.get ⟨r % nd.unexpanded.length, hidx⟩ ::
            (expandRun g leaf rs t1).2) := by
      simp only [expandRun, hchosen, hexp, Option.map_some', Option.getD_some,
        Option.toList_some, List.singleton_append]
    have hlen2 : rs.length ≤
        (nd.unexpanded.eraseIdx (r % nd.unexpanded.length)).length := by
      rw [List.length_eraseIdx, if_pos hidx]
      simp only [List.length_cons] at hlen
      omega
    obtain ⟨nd2, hnd2, hulen2, hruns2, hmult2⟩ := ih t1 _ hleaf1 hlen2
    refine ⟨nd2, ?_, ?_, ?_, ?_⟩
    · rw [hrun]; exact hnd2
    · rw [hrun] at *
      rw [hulen2]
      simp only [List.length_eraseIdx, if_pos hidx, List.length_cons]
      simp only [List.length_cons] at hlen
      omega
    · rw [hrun]
      simp [hruns2]
    · rw [hrun]
      have hperm : (nd.unexpanded : Multiset A) =
          (nd.unexpanded.get ⟨r % nd.unexpanded.length, hidx⟩ ::ₘ
            (nd.unexpanded.eraseIdx (r % nd.unexpanded.length) : Multiset A)) := by
        rw [Multiset.cons_coe]
        exact Multiset.coe_eq_coe.mpr (perm_get_eraseIdx _ _ hidx)
      calc (nd2.unexpanded : Multiset A) +
            ((nd.unexpanded.get ⟨r % nd.unexpanded.length, hidx⟩ ::
              (expandRun g leaf rs t1).2 : List A) : Multiset A)
          = nd.unexpanded.get ⟨r % nd.unexpanded.length, hidx⟩ ::ₘ
            ((nd2.unexpanded : Multiset A) +
              ((expandRun g leaf rs t1).2 : Multiset A)) := by
            rw [← Multiset.cons_coe, Multiset.add_cons]
        _ = nd.unexpanded.get ⟨r % nd.unexpanded.length, hidx⟩ ::ₘ
            ((nd.unexpanded.eraseIdx (r % nd.unexpanded.length) : List A) :
              Multiset A) := by
            dsimp only at hmult2
            rw [hmult2]
        _ = (nd.unexpanded : Multiset A) := hperm.symm

/-- C5: on a leaf with non-empty `unexpanded`, `expand` (for every RNG
oracle value, i.e. every uniformly drawn index) appends exactly one fresh
node to the arena — parent the leaf, `expanded` empty, `unexpanded` the
legal actions of the successor state, all counters zero — removes the
chosen action from the leaf's `unexpanded`, appends the new index to the
leaf's `expanded`, and returns the new index; all other nodes are
untouched.  Consequently repeated `expand` calls on the same leaf never
select the same action twice (the chosen actions plus the remainder
always form the original multiset) and exhaust `unexpanded` after exactly
`|unexpanded|` calls. -/
theorem expand_fresh_child :
    (∀ (A S : Type) (g : GameIface A S) (t : MCTSTree A S) (leaf r : Nat)
        (nd : MCTSNode A S),
      t.arena.get? leaf = some nd → nd.unexpanded ≠ [] →
      ∃ (t1 : MCTSTree A S)
        (hidx : r % nd.unexpanded.length < nd.unexpanded.length),
        expand g t leaf r = some (t1, t.arena.length) ∧
        t1.arena.length = t.arena.length + 1 ∧
        t1.arena.get? t.arena.length = some
          { game_state := g.apply_action nd.game_state
              (nd.unexpanded.get ⟨r % nd.unexpanded.length, hidx⟩),
            parent := some leaf, expanded := [],
            unexpanded := g.generate_legal_actions (g.apply_action nd.game_state
              (nd.unexpanded.get ⟨r % nd.unexpanded.length, hidx⟩)),
            wins := 0, draws := 0, sims := 0 } ∧
        t1.arena.get? leaf = some
          { nd with
            unexpanded := nd.unexpanded.eraseIdx (r % nd.unexpanded.length),
            expanded := nd.expanded ++ [t.arena.length] } ∧
        (∀ j, j ≠ leaf → j ≠ t.arena.length →
          t1.arena.get? j = t.arena.get? j)) ∧
    (∀ (A S : Type) (g : GameIface A S) (leaf : Nat) (rs : List Nat)
        (t : MCTSTree A S) (nd : MCTSNode A S),
      t.arena.get? leaf = some nd → rs.length ≤ nd.unexpanded.length →
      ∃ nd1, (expandRun g leaf rs t).1.arena.get? leaf = some nd1 ∧
        nd1.unexpanded.length = nd.unexpanded.length - rs.length ∧
        (expandRun g leaf rs t).2.length = rs.length ∧
        ((nd1.unexpanded : Multiset A) + ((expandRun g leaf rs t).2 : Multiset A) =
          (nd.unexpanded : Multiset A)) ∧
        (rs.length = nd.unexpanded.length → nd1.unexpanded = [])) := by
  constructor
  · intro A S g t leaf r nd h hne
    have hu : nd.unexpanded.length ≠ 0 := fun hc => hne (List.length_eq_zero.mp hc)
    obtain ⟨t1, hidx, hexp, hlen1, havg, hnew, hleaf1, hframe⟩ := expand_get g t leaf r nd h hu
    exact ⟨t1, hidx, hexp, hlen1, hnew, hleaf1, hframe⟩
  · intro A S g leaf rs t nd h hlen
    obtain ⟨nd1, h1, h2, h3, h4⟩ := expandRun_spec g leaf rs t nd h hlen
    refine ⟨nd1, h1, h2, h3, h4, fun hfull => ?_⟩
    apply List.length_eq_zero.mp
    omega

/-- C5 witness: expanding node 3 of the example tree (two unexpanded
actions) returns the new index 12, and two expansions exhaust its
unexpanded list. -/
theorem expand_fresh_child_wit :
    (∃ t1, expand phG exampleTree 3 1 = some (t1, exampleTree.arena.length) ∧
      t1.arena.length = exampleTree.arena.length + 1) ∧
    (∃ nd1, (expandRun phG 3 [0, 0] exampleTree).1.arena.get? 3 = some nd1 ∧
      nd1.unexpanded = []) := by
  constructor
  · obtain ⟨t1, hidx, hexp, hlen1, -, -, -⟩ :=
      expand_fresh_child.1 Nat PlaceHolderState phG exampleTree 3 1
        (phNode 3 (some 2) [] [10, 11] 1 1) rfl (by decide)
    exact ⟨t1, hexp, hlen1⟩
  · obtain ⟨nd1, h1, -, -, -, h5⟩ :=
      expand_fresh_child.2 Nat PlaceHolderState phG 3 [0, 0] exampleTree
        (phNode 3 (some 2) [] [10, 11] 1 1) rfl (by decide)
    exact ⟨nd1, h1, h5 (by decide)⟩

/-- C6: `expand` on a node whose `unexpanded` list is empty returns that
same node index with the tree completely unchanged: no arena entry is
appended and every node keeps every field, statistics included. -/
theorem expand_terminal_idempotent {A S : Type} (g : GameIface A S)
    (t : MCTSTree A S) (leaf : Nat) (r : Nat) (nd : MCTSNode A S)
    (h : t.arena.get? leaf = some nd) (hu : nd.unexpanded = []) :
    expand g t leaf r = some (t, leaf) :=
  expand_terminal g t leaf r nd h hu

/-- C6 witness: expanding terminal node 9 of the example tree returns the
tree unchanged. -/
theorem expand_terminal_idempotent_wit :
    expand phG exampleTree 9 5 = some (exampleTree, 9) :=
  expand_terminal_idempotent phG exampleTree 9 5 (phNode 2 (some 8) [] [] 1 1)
    rfl rfl

/-! ## Claim C7: statistics invariants -/

lemma expand_inv {A S : Type} (g : GameIface A S) (t : MCTSTree A S)
    (leaf r : Nat)
    (hinv : ∀ i nd, t.arena.get? i = some nd → nd.wins + nd.draws ≤ nd.sims) :
    ∀ i nd, (((expand g t leaf r).map Prod.fst).getD t).arena.get? i = some nd →
      nd.wins + nd.draws ≤ nd.sims := by
  cases h : t.arena.get? leaf with
  | none =>
    have hnone : expand g t leaf r = none := by unfold expand; rw [h]
    simpa [hnone] using hinv
  | some nd0 =>
    by_cases hu : nd0.unexpanded.length = 0
    · have hterm := expand_terminal g t leaf r nd0 h (List.length_eq_zero.mp hu)
      simpa [hterm] using hinv
    · obtain ⟨t1, hidx, hexp, hlen1, havg, hnew, hleaf1, hframe⟩ :=
        expand_get g t leaf r nd0 h hu
      simp only [hexp, Option.map_some', Option.getD_some]
      intro i nd hi
      by_cases hileaf : i = leaf
      · subst hileaf
        rw [hleaf1] at hi
        obtain rfl := Option.some.inj hi
        simpa using hinv i nd0 h
      · by_cases hilen : i = t.arena.length
        · subst hilen
          rw [hnew] at hi
          obtain rfl := Option.some.inj hi
          simp
        · rw [hframe i hileaf hilen] at hi
          exact hinv i nd hi

lemma backprop_inv {A S : Type} (g : GameIface A S) (t : MCTSTree A S)
    (n : Nat) (r : GameResult)
    (hinv : ∀ i nd, t.arena.get? i = some nd → nd.wins + nd.draws ≤ nd.sims) :
    ∀ i nd, ((backpropagate g t n r).getD t).arena.get? i = some nd →
      nd.wins + nd.draws ≤ nd.sims := by
  cases hb : backpropagate g t n r with
  | none => simpa using hinv
  | some t1 =>
    obtain ⟨a1, hbp, rfl⟩ : ∃ a1, bpGo g r t.arena.length n t.arena = some a1 ∧
        t1 = { t with arena := a1 } := by
      unfold backpropagate at hb
      obtain ⟨a1, h1, h2⟩ := Option.map_eq_some'.mp hb
      exact ⟨a1, h1, h2.symm⟩
    simpa using bpGo_inv g r t.arena.length n t.arena a1 hinv hbp

lemma applyOp_inv {A S : Type} (g : GameIface A S) (t : MCTSTree A S)
    (op : TreeOp)
    (hinv : ∀ i nd, t.arena.get? i = some nd → nd.wins + nd.draws ≤ nd.sims) :
    ∀ i nd, (applyOp g t op).arena.get? i = some nd →
      nd.wins + nd.draws ≤ nd.sims := by
  cases op with
  | exp leaf r => exact expand_inv g t leaf r hinv
  | backprop n res => exact backprop_inv g t n res hinv

lemma foldl_inv {A S : Type} (g : GameIface A S) :
    ∀ (ops : List TreeOp) (t : MCTSTree A S),
      (∀ i nd, t.arena.get? i = some nd → nd.wins + nd.draws ≤ nd.sims) →
      ∀ i nd, (ops.foldl (applyOp g) t).arena.get? i = some nd →
        nd.wins + nd.draws ≤ nd.sims := by
  intro ops
  induction ops with
  | nil => intro t h; simpa using h
  | cons op ops ih =>
    intro t h
    simp only [List.foldl_cons]
    exact ih (applyOp g t op) (applyOp_inv g t op h)

lemma with_capacity_inv {A S : Type} (g : GameIface A S) (cap : Nat)
    (seed : Option Nat) (pos : String) (avg : Nat) :
    ∀ i nd, (with_capacity g cap seed pos avg).arena.get? i = some nd →
      nd.wins + nd.draws ≤ nd.sims := by
  intro i nd h
  cases i with
  | zero =>
    simp only [with_capacity, List.get?] at h
    obtain rfl := Option.some.inj h
    simp
  | succ j =>
    simp only [with_capacity, List.get?] at h
    exact absurd h (by simp)

lemma bpFold_sims {A S : Type} (g : GameIface A S) (n : Nat) :
    ∀ (calls : List (Nat × GameResult)) (t : MCTSTree A S),
      wfArena t.arena = true →
      (∀ c ∈ calls, c.1 < t.arena.length ∧
        ∃ ch, parent_chain t c.1 = some ch ∧ n ∈ ch) →
      ∃ t2, bpFold g calls t = some t2 ∧
        ∀ nd, t.arena.get? n = some nd →
          ∃ nd2, t2.arena.get? n = some nd2 ∧
            nd2.sims = nd.sims + calls.length := by
  intro calls
  induction calls with
  | nil => intro t _ _; exact ⟨t, rfl, fun nd h => ⟨nd, h, by simp⟩⟩
  | cons c cs ih =>
    intro t hw hcalls
    obtain ⟨hc1, ch0, hch0, hmem0⟩ := hcalls c (List.mem_cons_self _ _)
    obtain ⟨a1, hbp, hpt⟩ :=
      bpGo_spec g c.2 c.1 t.arena t.arena.length hw hc1 (by omega) ch0 hch0
    have hbp_t : backpropagate g t c.1 c.2 = some { t with arena := a1 } := by
      unfold backpropagate; rw [hbp]; rfl
    obtain ⟨hlenf, hparf⟩ := bpGo_frame g c.2 t.arena.length c.1 t.arena a1 hbp
    have hw1 : wfArena a1 = true := by
      rw [wfArena_congr hlenf hparf]; exact hw
    have hchain1 : ∀ s, parent_chain ({ t with arena := a1 } : MCTSTree A S) s =
        parent_chain t s := by
      intro s
      unfold parent_chain
      dsimp only
      rw [hlenf]
      exact chainGo_congr _ s a1 t.arena hparf
    have hcalls1 : ∀ c2 ∈ cs,
        c2.1 < ({ t with arena := a1 } : MCTSTree A S).arena.length ∧
        ∃ ch, parent_chain ({ t with arena := a1 } : MCTSTree A S) c2.1 =
          some ch ∧ n ∈ ch := by
      intro c2 hc2
      obtain ⟨hx, ch, hch, hm⟩ := hcalls c2 (List.mem_cons_of_mem _ hc2)
      refine ⟨?_, ch, ?_, hm⟩
      · dsimp only; rw [hlenf]; exact hx
      · rw [hchain1]; exact hch
    obtain ⟨t2, hfold, hsims⟩ := ih { t with arena := a1 } hw1 hcalls1
    refine ⟨t2, ?_, ?_⟩
    · simp only [bpFold, hbp_t, Option.some_bind]
      exact hfold
    · intro nd hnd
      have hn1 : ({ t with arena := a1 } : MCTSTree A S).arena.get? n =
          some (bumpNode g nd c.2) := by
        dsimp only
        rw [hpt n, hnd]
        simp [hmem0]
      obtain ⟨nd2, hnd2, hs2⟩ := hsims (bumpNode g nd c.2) hn1
      refine ⟨nd2, hnd2, ?_⟩
      rw [hs2, bumpNode_sims]
      simp only [List.length_cons]
      omega

/-- C7: from a freshly constructed tree, any sequence of tree operations
keeps `wins + draws ≤ sims` at every node; and any list of backpropagate
calls all of whose walked parent chains pass through node `n` increases
`n.sims` by exactly the number of calls (each visit adds exactly 1 to
`sims` and at most 1 to `wins` or `draws`). -/
theorem stats_invariant :
    (∀ (A S : Type) (g : GameIface A S) (arena_capacity : Nat)
        (seed : Option Nat) (starting_pos : String) (average_child_count : Nat)
        (ops : List TreeOp) (i : Nat) (nd : MCTSNode A S),
      (ops.foldl (applyOp g)
        (with_capacity g arena_capacity seed starting_pos average_child_count)
        ).arena.get? i = some nd →
      nd.wins + nd.draws ≤ nd.sims) ∧
    (∀ (A S : Type) (g : GameIface A S) (t : MCTSTree A S) (n : Nat)
        (calls : List (Nat × GameResult)),
      wfArena t.arena = true →
      (∀ c ∈ calls, c.1 < t.arena.length ∧
        ∃ ch, parent_chain t c.1 = some ch ∧ n ∈ ch) →
      ∃ t2, bpFold g calls t = some t2 ∧
        ∀ nd, t.arena.get? n = some nd →
          ∃ nd2, t2.arena.get? n = some nd2 ∧
            nd2.sims = nd.sims + calls.length) := by
  constructor
  · intro A S g cap seed pos avg ops i nd h
    exact foldl_inv g ops _ (with_capacity_inv g cap seed pos avg) i nd h
  · intro A S g t n calls hw hcalls
    exact bpFold_sims g n calls t hw hcalls

/-- C7 witness: one backpropagation from node 6 of the example tree passes
through node 1 and raises its sims from 8 to 9. -/
theorem stats_invariant_wit :
    ∃ t2, bpFold phG [(6, GameResult.SecondPlayerWin)] exampleTree = some t2 ∧
      ∃ nd2, t2.arena.get? 1 = some nd2 ∧ nd2.sims = 9 := by
  obtain ⟨t2, h1, h2⟩ := stats_invariant.2 Nat PlaceHolderState phG exampleTree 1
    [(6, GameResult.SecondPlayerWin)] (by decide)
    (by
      intro c hc
      simp only [List.mem_singleton] at hc
      subst hc
      exact ⟨by decide, [6, 5, 1, 0], by decide, by decide⟩)
  obtain ⟨nd2, h3, h4⟩ := h2 (phNode 1 (some 0) [2, 4, 5] [] 5 8) rfl
  exact ⟨t2, h1, nd2, h3, by rw [h4]; rfl⟩

/-! ## Lemmas about `uct`, `get_max_uct_child` and `select` -/

lemma fgt_val_val {a b : ℝ} : fgt (FV.val a) (FV.val b) ↔ b < a := Iff.rfl

lemma fgt_nan_left (u : FV) : ¬ fgt FV.nan u := by
  cases u <;> simp [fgt]

lemma f32MIN_neg : f32MIN < 0 := by
  unfold f32MIN
  norm_num

lemma fgt_val_f32MIN {v : ℝ} (h : 0 ≤ v) : fgt (FV.val v) (FV.val f32MIN) :=
  fgt_val_val.mpr (lt_of_lt_of_le f32MIN_neg h)

lemma uctFV_eval (w s ps : Nat) (c : ℝ) (hs : 1 ≤ s) (hps : 1 ≤ ps) :
    uctFV w s ps c =
      FV.val ((w : ℝ) / (s : ℝ) + c * Real.sqrt (Real.log (ps : ℝ) / (s : ℝ))) := by
  have hs0 : ((s : ℝ)) ≠ 0 := ne_of_gt (by exact_mod_cast hs)
  have hps0 : (0 : ℝ) < (ps : ℝ) := by exact_mod_cast hps
  have hlog : 0 ≤ Real.log (ps : ℝ) := Real.log_nonneg (by exact_mod_cast hps)
  have hdiv : 0 ≤ Real.log (ps : ℝ) / (s : ℝ) :=
    div_nonneg hlog (by positivity)
  simp [uctFV, fdiv, fln, fsqrt, fmul, fadd, hs0, hps0, hdiv]

lemma uctFV_nan (ps : Nat) (c : ℝ) : uctFV 0 0 ps c = FV.nan := by
  simp [uctFV, fdiv, fadd]

lemma uct_some {A S : Type} (t : MCTSTree A S) (child : Nat) (c : Option ℝ)
    (nd pnd : MCTSNode A S) (p : Nat) (h1 : t.arena.get? child = some nd)
    (h2 : nd.parent = some p) (h3 : t.arena.get? p = some pnd) :
    uct t child c = some (uctFV nd.wins nd.sims pnd.sims (c.getD (Real.sqrt 2))) := by
  simp only [uct, h1, h2, h3]

lemma gmGo_nil {A S : Type} (t : MCTSTree A S) (c : Option ℝ) (bv : FV) (bi : Nat) :
    gmGo t c [] bv bi = some bi := rfl

lemma gmGo_cons_gt {A S : Type} (t : MCTSTree A S) (c : Option ℝ) (ch : Nat)
    (rest : List Nat) (bv : FV) (bi : Nat) (u : FV)
    (h : uct t ch c = some u) (hgt : fgt u bv) :
    gmGo t c (ch :: rest) bv bi = gmGo t c rest u ch := by
  simp only [gmGo, h, if_pos hgt]

lemma gmGo_cons_le {A S : Type} (t : MCTSTree A S) (c : Option ℝ) (ch : Nat)
    (rest : List Nat) (bv : FV) (bi : Nat) (u : FV)
    (h : uct t ch c = some u) (hle : ¬ fgt u bv) :
    gmGo t c (ch :: rest) bv bi = gmGo t c rest bv bi := by
  simp only [gmGo, h, if_neg hle]

lemma get_max_unfold {A S : Type} (t : MCTSTree A S) (parent : Nat)
    (c : Option ℝ) (nd : MCTSNode A S) (h : t.arena.get? parent = some nd) :
    get_max_uct_child t parent c = gmGo t c nd.expanded (FV.val f32MIN) 0 := by
  simp only [get_max_uct_child, h]

lemma gmGo_stay {A S : Type} (t : MCTSTree A S) (c : Option ℝ) (bv : FV) :
    ∀ (l : List Nat) (bi : Nat),
      (∀ ch ∈ l, ∃ u, uct t ch c = some u ∧ ¬ fgt u bv) →
      gmGo t c l bv bi = some bi := by
  intro l
  induction l with
  | nil => intro bi _; rfl
  | cons x xs ih =>
    intro bi hall
    obtain ⟨u, hu, hle⟩ := hall x (List.mem_cons_self _ _)
    rw [gmGo_cons_le t c x xs bv bi u hu hle]
    exact ih bi fun ch hch => hall ch (List.mem_cons_of_mem _ hch)

lemma selectFuel_leaf {A S : Type} (t : MCTSTree A S) (c : Option ℝ)
    (fuel root : Nat) (nd : MCTSNode A S) (h : t.arena.get? root = some nd)
    (hl : nd.unexpanded ≠ [] ∨ nd.expanded = []) :
    selectFuel t c (fuel + 1) root = some root := by
  rcases hl with hl | hl
  · simp only [selectFuel, h]
    rw [if_neg (fun hc => hl (List.length_eq_zero.mp hc))]
  · by_cases hu : nd.unexpanded.length = 0
    · simp only [selectFuel, h]
      rw [if_pos hu, if_pos (by simp [hl])]
    · simp only [selectFuel, h]
      rw [if_neg hu]

lemma selectFuel_desc {A S : Type} (t : MCTSTree A S) (c : Option ℝ)
    (fuel root : Nat) (nd : MCTSNode A S) (h : t.arena.get? root = some nd)
    (hu : nd.unexpanded = []) (he : nd.expanded ≠ []) :
    selectFuel t c (fuel + 1) root =
      (get_max_uct_child t root c).bind (fun nxt => selectFuel t c fuel nxt) := by
  simp only [selectFuel, h]
  rw [if_pos (by simp [hu]), if_neg (by simp [he])]
  cases hgm : get_max_uct_child t root c <;> rfl

lemma selectFuel_sound {A S : Type} (t : MCTSTree A S) (c : Option ℝ) :
    ∀ (fuel root r : Nat), selectFuel t c fuel root = some r →
      ∃ nd, t.arena.get? r = some nd ∧
        (nd.unexpanded ≠ [] ∨ nd.expanded = []) := by
  intro fuel
  induction fuel with
  | zero => intro root r h; exact absurd h (by simp [selectFuel])
  | succ f ih =>
    intro root r h
    cases hroot : t.arena.get? root with
    | none => rw [selectFuel, hroot] at h; exact absurd h (by simp)
    | some nd =>
      by_cases hu : nd.unexpanded.length = 0
      · by_cases he : nd.expanded.length = 0
        · simp only [selectFuel, hroot] at h
          rw [if_pos hu, if_pos he] at h
          obtain rfl := Option.some.inj h
          exact ⟨nd, hroot, Or.inr (List.length_eq_zero.mp he)⟩
        · simp only [selectFuel, hroot] at h
          rw [if_pos hu, if_neg he] at h
          cases hgm : get_max_uct_child t root c with
          | none => rw [hgm] at h; exact absurd h (by simp)
          | some nxt =>
            rw [hgm] at h
            exact ih nxt r h
      · simp only [selectFuel, hroot] at h
        rw [if_neg hu] at h
        obtain rfl := Option.some.inj h
        exact ⟨nd, hroot, Or.inl (fun hc => hu (by simp [hc]))⟩

lemma gmGo_argmax {A S : Type} (t : MCTSTree A S) (c : Option ℝ) (vs : Nat → ℝ) :
    ∀ (l : List Nat) (b : ℝ) (bi : Nat),
      (∀ ch ∈ l, uct t ch c = some (FV.val (vs ch))) →
      (gmGo t c l (FV.val b) bi = some bi ∧ ∀ ch ∈ l, vs ch ≤ b) ∨
      (∃ k, ∃ hk : k < l.length,
        gmGo t c l (FV.val b) bi = some (l.get ⟨k, hk⟩) ∧
        b < vs (l.get ⟨k, hk⟩) ∧
        (∀ m, ∀ hm : m < l.length,
          vs (l.get ⟨m, hm⟩) ≤ vs (l.get ⟨k, hk⟩)) ∧
        (∀ m, ∀ hm : m < l.length, m < k →
          vs (l.get ⟨m, hm⟩) < vs (l.get ⟨k, hk⟩))) := by
  intro l
  induction l with
  | nil => intro b bi _; exact Or.inl ⟨rfl, by simp⟩
  | cons x xs ih =>
    intro b bi hv
    have hx := hv x (List.mem_cons_self _ _)
    have hvxs : ∀ ch ∈ xs, uct t ch c = some (FV.val (vs ch)) :=
      fun ch hch => hv ch (List.mem_cons_of_mem _ hch)
    by_cases hbx : b < vs x
    · rw [gmGo_cons_gt t c x xs _ bi _ hx (fgt_val_val.mpr hbx)]
      rcases ih (vs x) x hvxs with ⟨heq, hle⟩ | ⟨k, hk, heq, hbk, hmax, hstrict⟩
      · refine Or.inr ⟨0, by simp, by simpa using heq, by simpa using hbx, ?_, ?_⟩
        · intro m hm
          cases m with
          | zero => exact le_refl _
          | succ j =>
            simp only [List.get]
            exact hle _ (List.get_mem _ _ _)
        · intro m hm hmk
          omega
      · refine Or.inr ⟨k + 1, by simpa using hk, by simpa using heq, ?_, ?_, ?_⟩
        · exact lt_trans hbx (by simpa using hbk)
        · intro m hm
          cases m with
          | zero => exact le_of_lt (by simpa using hbk)
          | succ j =>
            simp only [List.get]
            exact hmax j (by simpa using hm)
        · intro m hm hmk
          cases m with
          | zero => simpa using hbk
          | succ j =>
            simp only [List.get]
            exact hstrict j (by simpa using hm) (by omega)
    · rw [gmGo_cons_le t c x xs _ bi _ hx (fun hc => hbx (fgt_val_val.mp hc))]
      rcases ih b bi hvxs with ⟨heq, hle⟩ | ⟨k, hk, heq, hbk, hmax, hstrict⟩
      · refine Or.inl ⟨heq, ?_⟩
        intro ch hch
        rcases List.mem_cons.mp hch with rfl | hch
        · exact not_lt.mp hbx
        · exact hle ch hch
      · refine Or.inr ⟨k + 1, by simpa using hk, by simpa using heq, ?_, ?_, ?_⟩
        · simpa using hbk
        · intro m hm
          cases m with
          | zero =>
            exact le_trans (not_lt.mp hbx) (le_of_lt (by simpa using hbk))
          | succ j =>
            simp only [List.get]
            exact hmax j (by simpa using hm)
        · intro m hm hmk
          cases m with
          | zero =>
            exact lt_of_le_of_lt (not_lt.mp hbx) (by simpa using hbk)
          | succ j =>
            simp only [List.get]
            exact hstrict j (by simpa using hm) (by omega)

/-! ## Numeric bounds for the concrete example-tree scenarios -/

lemma sqrt_two_mul_self : Real.sqrt 2 * Real.sqrt 2 = 2 :=
  Real.mul_self_sqrt (by norm_num)

lemma sqrt_two_lb : (1.414 : ℝ) < Real.sqrt 2 := by
  nlinarith [sqrt_two_mul_self, Real.sqrt_nonneg 2]

lemma sqrt_two_ub : Real.sqrt 2 < 1.415 := by
  nlinarith [sqrt_two_mul_self, Real.sqrt_nonneg 2]

lemma log_twelve_lb : (2 : ℝ) < Real.log 12 := by
  rw [Real.lt_log_iff_exp_lt (by norm_num : (0:ℝ) < 12)]
  have h2 : Real.exp 2 = Real.exp 1 * Real.exp 1 := by
    rw [← Real.exp_add]; norm_num
  have hlt := Real.exp_one_lt_d9
  have hpos := Real.exp_pos 1
  nlinarith

lemma log_twelve_ub : Real.log 12 < 3 := by
  rw [Real.log_lt_iff_lt_exp (by norm_num : (0:ℝ) < 12)]
  have h3 : Real.exp 3 = Real.exp 1 * Real.exp 1 * Real.exp 1 := by
    rw [← Real.exp_add, ← Real.exp_add]; norm_num
  have hgt := Real.exp_one_gt_d9
  have hpos := Real.exp_pos 1
  nlinarith

lemma log_eight_lb : (207/100 : ℝ) < Real.log 8 := by
  have h8 : (8 : ℝ) = 2 ^ 3 := by norm_num
  rw [h8, Real.log_pow]
  push_cast
  nlinarith [Real.log_two_gt_d9]

lemma log_four_nonneg : (0 : ℝ) ≤ Real.log 4 :=
  Real.log_nonneg (by norm_num)

/-- Root scan of the example tree: `UCT(8) > UCT(1)` (≈ 1.615 vs 1.413). -/
lemma uct_cmp_A :
    (5/8 : ℝ) + Real.sqrt 2 * Real.sqrt (Real.log 12 / 8) <
      1/2 + Real.sqrt 2 * Real.sqrt (Real.log 12 / 4) := by
  have hL := log_twelve_lb
  have h48 : Real.log 12 / 4 = 2 * (Real.log 12 / 8) := by ring
  rw [h48, Real.sqrt_mul (by norm_num : (0:ℝ) ≤ 2)]
  set a := Real.sqrt (Real.log 12 / 8) with ha
  have ha0 : 0 ≤ a := Real.sqrt_nonneg _
  have ha2 : a * a = Real.log 12 / 8 :=
    Real.mul_self_sqrt (div_nonneg (by linarith) (by norm_num))
  have halb : 1/2 < a := by nlinarith
  have hs2 := sqrt_two_mul_self
  have hs0 : (0:ℝ) ≤ Real.sqrt 2 := Real.sqrt_nonneg 2
  have hsub := sqrt_two_ub
  have hrw : Real.sqrt 2 * (Real.sqrt 2 * a) = 2 * a := by
    rw [← mul_assoc, hs2]
  rw [hrw]
  nlinarith [mul_pos (by linarith : (0:ℝ) < a - 1/2)
    (by linarith : (0:ℝ) < 2 - Real.sqrt 2)]

/-- Node-8 scan of the example tree: `UCT(10) ≤ UCT(9)` (≈ 1.677 vs 2.665). -/
lemma uct_cmp_B :
    (1/2 : ℝ) + Real.sqrt 2 * Real.sqrt (Real.log 4 / 2) ≤
      1 + Real.sqrt 2 * Real.sqrt (Real.log 4) := by
  have h0 := log_four_nonneg
  have hmono : Real.sqrt (Real.log 4 / 2) ≤ Real.sqrt (Real.log 4) :=
    Real.sqrt_le_sqrt (by linarith)
  have hs0 : (0:ℝ) ≤ Real.sqrt 2 := Real.sqrt_nonneg 2
  nlinarith [mul_le_mul_of_nonneg_left hmono hs0]

/-- Root scan of the modified example tree: `UCT(8) ≤ UCT(1)` once node 1
has 8 wins (≈ 1.615 vs 1.788). -/
lemma uct_cmp_C :
    (1/2 : ℝ) + Real.sqrt 2 * Real.sqrt (Real.log 12 / 4) ≤
      1 + Real.sqrt 2 * Real.sqrt (Real.log 12 / 8) := by
  have hL := log_twelve_lb
  have hLu := log_twelve_ub
  have h48 : Real.log 12 / 4 = 2 * (Real.log 12 / 8) := by ring
  rw [h48, Real.sqrt_mul (by norm_num : (0:ℝ) ≤ 2)]
  set a := Real.sqrt (Real.log 12 / 8) with ha
  have ha0 : 0 ≤ a := Real.sqrt_nonneg _
  have ha2 : a * a = Real.log 12 / 8 :=
    Real.mul_self_sqrt (div_nonneg (by linarith) (by norm_num))
  have haub : a < 0.62 := by nlinarith
  have hs2 := sqrt_two_mul_self
  have hslb := sqrt_two_lb
  have hsub := sqrt_two_ub
  have hs0 : (0:ℝ) ≤ Real.sqrt 2 := Real.sqrt_nonneg 2
  have hrw : Real.sqrt 2 * (Real.sqrt 2 * a) = 2 * a := by
    rw [← mul_assoc, hs2]
  rw [hrw]
  nlinarith [mul_nonneg (by linarith : (0:ℝ) ≤ 0.62 - a)
    (by linarith : (0:ℝ) ≤ 2 - Real.sqrt 2)]

/-- Node-1 scan of the modified example tree: `UCT(4) > UCT(2)`
(≈ 2.039 vs 1.942). -/
lemma uct_cmp_D :
    (1/2 : ℝ) + Real.sqrt 2 * Real.sqrt (Real.log 8 / 2) <
      Real.sqrt 2 * Real.sqrt (Real.log 8) := by
  have hL := log_eight_lb
  have hx : Real.sqrt (Real.log 8) = Real.sqrt 2 * Real.sqrt (Real.log 8 / 2) := by
    rw [← Real.sqrt_mul (by norm_num : (0:ℝ) ≤ 2) (Real.log 8 / 2),
      show (2:ℝ) * (Real.log 8 / 2) = Real.log 8 from by ring]
  rw [hx]
  set b := Real.sqrt (Real.log 8 / 2) with hb
  have hb0 : 0 ≤ b := Real.sqrt_nonneg _
  have hb2 : b * b = Real.log 8 / 2 :=
    Real.mul_self_sqrt (div_nonneg (by linarith) (by norm_num))
  have hblb : 1.01 < b := by nlinarith
  have hs2 := sqrt_two_mul_self
  have hs0 : (0:ℝ) ≤ Real.sqrt 2 := Real.sqrt_nonneg 2
  have hsub := sqrt_two_ub
  have hrw : Real.sqrt 2 * (Real.sqrt 2 * b) = 2 * b := by
    rw [← mul_assoc, hs2]
  rw [hrw]
  nlinarith [mul_pos (by linarith : (0:ℝ) < b - 1.01)
    (by linarith : (0:ℝ) < 2 - Real.sqrt 2)]

/-- Node-1 scan of the modified example tree: `UCT(5) ≤ UCT(4)`
(≈ 1.520 vs 2.039). -/
lemma uct_cmp_E :
    (1/2 : ℝ) + Real.sqrt 2 * Real.sqrt (Real.log 8 / 4) ≤
      Real.sqrt 2 * Real.sqrt (Real.log 8) := by
  have hL := log_eight_lb
  have h42 : Real.sqrt 4 = 2 := by
    rw [show (4:ℝ) = 2 ^ 2 by norm_num, Real.sqrt_sq (by norm_num : (0:ℝ) ≤ 2)]
  have hx : Real.sqrt (Real.log 8) = 2 * Real.sqrt (Real.log 8 / 4) := by
    rw [← h42, ← Real.sqrt_mul (by norm_num : (0:ℝ) ≤ 4) (Real.log 8 / 4),
      show (4:ℝ) * (Real.log 8 / 4) = Real.log 8 from by ring]
  rw [hx]
  set d := Real.sqrt (Real.log 8 / 4) with hd
  have hd0 : 0 ≤ d := Real.sqrt_nonneg _
  have hd2 : d * d = Real.log 8 / 4 :=
    Real.mul_self_sqrt (div_nonneg (by linarith) (by norm_num))
  have hdlb : 0.71 < d := by nlinarith
  have hslb := sqrt_two_lb
  have hs0 : (0:ℝ) ≤ Real.sqrt 2 := Real.sqrt_nonneg 2
  nlinarith [mul_pos (by linarith : (0:ℝ) < Real.sqrt 2 - 1.414)
    (by linarith : (0:ℝ) < d - 0.71)]

/-! ## UCT values of the example-tree nodes used by the select scenarios -/

lemma uctT1 : uct exampleTree 1 (some (Real.sqrt 2)) =
    some (FV.val (5/8 + Real.sqrt 2 * Real.sqrt (Real.log 12 / 8))) := by
  rw [uct_some exampleTree 1 _ (phNode 1 (some 0) [2, 4, 5] [] 5 8)
    (phNode 0 none [1, 8] [] 5 12) 0 rfl rfl rfl]
  show some (uctFV 5 8 12 (Real.sqrt 2)) = _
  rw [uctFV_eval 5 8 12 _ (by norm_num) (by norm_num)]
  norm_num

lemma uctT8 : uct exampleTree 8 (some (Real.sqrt 2)) =
    some (FV.val (1/2 + Real.sqrt 2 * Real.sqrt (Real.log 12 / 4))) := by
  rw [uct_some exampleTree 8 _ (phNode 1 (some 0) [9, 10] [] 2 4)
    (phNode 0 none [1, 8] [] 5 12) 0 rfl rfl rfl]
  show some (uctFV 2 4 12 (Real.sqrt 2)) = _
  rw [uctFV_eval 2 4 12 _ (by norm_num) (by norm_num)]
  norm_num

lemma uctT9 : uct exampleTree 9 (some (Real.sqrt 2)) =
    some (FV.val (1 + Real.sqrt 2 * Real.sqrt (Real.log 4))) := by
  rw [uct_some exampleTree 9 _ (phNode 2 (some 8) [] [] 1 1)
    (phNode 1 (some 0) [9, 10] [] 2 4) 8 rfl rfl rfl]
  show some (uctFV 1 1 4 (Real.sqrt 2)) = _
  rw [uctFV_eval 1 1 4 _ (by norm_num) (by norm_num)]
  norm_num

lemma uctT10 : uct exampleTree 10 (some (Real.sqrt 2)) =
    some (FV.val (1/2 + Real.sqrt 2 * Real.sqrt (Real.log 4 / 2))) := by
  rw [uct_some exampleTree 10 _ (phNode 2 (some 8) [11] [] 1 2)
    (phNode 1 (some 0) [9, 10] [] 2 4) 8 rfl rfl rfl]
  show some (uctFV 1 2 4 (Real.sqrt 2)) = _
  rw [uctFV_eval 1 2 4 _ (by norm_num) (by norm_num)]
  norm_num

lemma uctT2_1 : uct exampleTree2 1 (some (Real.sqrt 2)) =
    some (FV.val (1 + Real.sqrt 2 * Real.sqrt (Real.log 12 / 8))) := by
  rw [uct_some exampleTree2 1 _ (phNode 1 (some 0) [2, 4, 5] [] 8 8)
    (phNode 0 none [1, 8] [] 5 12) 0 rfl rfl rfl]
  show some (uctFV 8 8 12 (Real.sqrt 2)) = _
  rw [uctFV_eval 8 8 12 _ (by norm_num) (by norm_num)]
  norm_num

lemma uctT2_8 : uct exampleTree2 8 (some (Real.sqrt 2)) =
    some (FV.val (1/2 + Real.sqrt 2 * Real.sqrt (Real.log 12 / 4))) := by
  rw [uct_some exampleTree2 8 _ (phNode 1 (some 0) [9, 10] [] 2 4)
    (phNode 0 none [1, 8] [] 5 12) 0 rfl rfl rfl]
  show some (uctFV 2 4 12 (Real.sqrt 2)) = _
  rw [uctFV_eval 2 4 12 _ (by norm_num) (by norm_num)]
  norm_num

lemma uctT2_2 : uct exampleTree2 2 (some (Real.sqrt 2)) =
    some (FV.val (1/2 + Real.sqrt 2 * Real.sqrt (Real.log 8 / 2))) := by
  rw [uct_some exampleTree2 2 _ (phNode 2 (some 1) [3] [] 1 2)
    (phNode 1 (some 0) [2, 4, 5] [] 8 8) 1 rfl rfl rfl]
  show some (uctFV 1 2 8 (Real.sqrt 2)) = _
  rw [uctFV_eval 1 2 8 _ (by norm_num) (by norm_num)]
  norm_num

lemma uctT2_4 : uct exampleTree2 4 (some (Real.sqrt 2)) =
    some (FV.val (Real.sqrt 2 * Real.sqrt (Real.log 8))) := by
  rw [uct_some exampleTree2 4 _ (phNode 2 (some 1) [] [] 0 1)
    (phNode 1 (some 0) [2, 4, 5] [] 8 8) 1 rfl rfl rfl]
  show some (uctFV 0 1 8 (Real.sqrt 2)) = _
  rw [uctFV_eval 0 1 8 _ (by norm_num) (by norm_num)]
  norm_num

lemma uctT2_5 : uct exampleTree2 5 (some (Real.sqrt 2)) =
    some (FV.val (1/2 + Real.sqrt 2 * Real.sqrt (Real.log 8 / 4))) := by
  rw [uct_some exampleTree2 5 _ (phNode 2 (some 1) [6, 7] [] 2 4)
    (phNode 1 (some 0) [2, 4, 5] [] 8 8) 1 rfl rfl rfl]
  show some (uctFV 2 4 8 (Real.sqrt 2)) = _
  rw [uctFV_eval 2 4 8 _ (by norm_num) (by norm_num)]
  norm_num

lemma gm_exA : get_max_uct_child exampleTree 0 (some (Real.sqrt 2)) = some 8 := by
  rw [get_max_unfold exampleTree 0 _ (phNode 0 none [1, 8] [] 5 12) rfl]
  show gmGo exampleTree (some (Real.sqrt 2)) [1, 8] (FV.val f32MIN) 0 = some 8
  rw [gmGo_cons_gt _ _ 1 [8] _ 0 _ uctT1 (fgt_val_f32MIN (by positivity)),
    gmGo_cons_gt _ _ 8 [] _ 1 _ uctT8 (fgt_val_val.mpr uct_cmp_A)]
  rfl

lemma gm_exB : get_max_uct_child exampleTree 8 (some (Real.sqrt 2)) = some 9 := by
  rw [get_max_unfold exampleTree 8 _ (phNode 1 (some 0) [9, 10] [] 2 4) rfl]
  show gmGo exampleTree (some (Real.sqrt 2)) [9, 10] (FV.val f32MIN) 0 = some 9
  rw [gmGo_cons_gt _ _ 9 [10] _ 0 _ uctT9 (fgt_val_f32MIN (by positivity)),
    gmGo_cons_le _ _ 10 [] _ 9 _ uctT10
      (fun hc => absurd (fgt_val_val.mp hc) (not_lt.mpr uct_cmp_B))]
  rfl

lemma gm_exC : get_max_uct_child exampleTree2 0 (some (Real.sqrt 2)) = some 1 := by
  rw [get_max_unfold exampleTree2 0 _ (phNode 0 none [1, 8] [] 5 12) rfl]
  show gmGo exampleTree2 (some (Real.sqrt 2)) [1, 8] (FV.val f32MIN) 0 = some 1
  rw [gmGo_cons_gt _ _ 1 [8] _ 0 _ uctT2_1 (fgt_val_f32MIN (by positivity)),
    gmGo_cons_le _ _ 8 [] _ 1 _ uctT2_8
      (fun hc => absurd (fgt_val_val.mp hc) (not_lt.mpr uct_cmp_C))]
  rfl

lemma gm_exD : get_max_uct_child exampleTree2 1 (some (Real.sqrt 2)) = some 4 := by
  rw [get_max_unfold exampleTree2 1 _ (phNode 1 (some 0) [2, 4, 5] [] 8 8) rfl]
  show gmGo exampleTree2 (some (Real.sqrt 2)) [2, 4, 5] (FV.val f32MIN) 0 = some 4
  rw [gmGo_cons_gt _ _ 2 [4, 5] _ 0 _ uctT2_2 (fgt_val_f32MIN (by positivity)),
    gmGo_cons_gt _ _ 4 [5] _ 2 _ uctT2_4 (fgt_val_val.mpr uct_cmp_D),
    gmGo_cons_le _ _ 5 [] _ 4 _ uctT2_5
      (fun hc => absurd (fgt_val_val.mp hc) (not_lt.mpr uct_cmp_E))]
  rfl

lemma select_exA : select exampleTree 0 (some (Real.sqrt 2)) = some 9 := by
  show selectFuel exampleTree (some (Real.sqrt 2)) (12 + 1) 0 = some 9
  rw [selectFuel_desc exampleTree _ 12 0 (phNode 0 none [1, 8] [] 5 12) rfl rfl
    (by decide), gm_exA, Option.some_bind]
  show selectFuel exampleTree (some (Real.sqrt 2)) (11 + 1) 8 = some 9
  rw [selectFuel_desc exampleTree _ 11 8 (phNode 1 (some 0) [9, 10] [] 2 4) rfl rfl
    (by decide), gm_exB, Option.some_bind]
  show selectFuel exampleTree (some (Real.sqrt 2)) (10 + 1) 9 = some 9
  exact selectFuel_leaf exampleTree _ 10 9 (phNode 2 (some 8) [] [] 1 1) rfl
    (Or.inr rfl)

lemma select_exB : select exampleTree2 0 (some (Real.sqrt 2)) = some 4 := by
  show selectFuel exampleTree2 (some (Real.sqrt 2)) (12 + 1) 0 = some 4
  rw [selectFuel_desc exampleTree2 _ 12 0 (phNode 0 none [1, 8] [] 5 12) rfl rfl
    (by decide), gm_exC, Option.some_bind]
  show selectFuel exampleTree2 (some (Real.sqrt 2)) (11 + 1) 1 = some 4
  rw [selectFuel_desc exampleTree2 _ 11 1 (phNode 1 (some 0) [2, 4, 5] [] 8 8)
    rfl rfl (by decide), gm_exD, Option.some_bind]
  show selectFuel exampleTree2 (some (Real.sqrt 2)) (10 + 1) 4 = some 4
  exact selectFuel_leaf exampleTree2 _ 10 4 (phNode 2 (some 1) [] [] 0 1) rfl
    (Or.inr rfl)

/-! ## Claims C3, C4, C9, C10 -/

/-- C3: the selection loop returns any node that has an unexpanded action
or is terminal (no children at all), descends via `get_max_uct_child`
otherwise, and only ever returns such leaves; on the fixed 12-node example
tree with `c = sqrt 2`, `select` from the root returns node 9, and after
setting node 1's wins to 8 the same call returns node 4. -/
theorem select_descends_to_leaf :
    (∀ (A S : Type) (t : MCTSTree A S) (c : Option ℝ) (fuel root : Nat)
        (nd : MCTSNode A S),
      t.arena.get? root = some nd →
      (nd.unexpanded ≠ [] ∨ nd.expanded = []) →
      selectFuel t c (fuel + 1) root = some root) ∧
    (∀ (A S : Type) (t : MCTSTree A S) (c : Option ℝ) (fuel root : Nat)
        (nd : MCTSNode A S),
      t.arena.get? root = some nd → nd.unexpanded = [] → nd.expanded ≠ [] →
      selectFuel t c (fuel + 1) root =
        (get_max_uct_child t root c).bind (fun nxt => selectFuel t c fuel nxt)) ∧
    (∀ (A S : Type) (t : MCTSTree A S) (c : Option ℝ) (fuel root r : Nat),
      selectFuel t c fuel root = some r →
      ∃ nd, t.arena.get? r = some nd ∧
        (nd.unexpanded ≠ [] ∨ nd.expanded = [])) ∧
    select exampleTree 0 (some (Real.sqrt 2)) = some 9 ∧
    select exampleTree2 0 (some (Real.sqrt 2)) = some 4 :=
  ⟨fun _ _ t c fuel root nd h hl => selectFuel_leaf t c fuel root nd h hl,
   fun _ _ t c fuel root nd h hu he => selectFuel_desc t c fuel root nd h hu he,
   fun _ _ t c fuel root r h => selectFuel_sound t c fuel root r h,
   select_exA, select_exB⟩

/-- C3 witness: the leaf rule at terminal node 9 of the example tree, and
the soundness rule applied to the root `select` call. -/
theorem select_descends_to_leaf_wit :
    selectFuel exampleTree (some (Real.sqrt 2)) 1 9 = some 9 ∧
    ∃ nd, exampleTree.arena.get? 9 = some nd ∧
      (nd.unexpanded ≠ [] ∨ nd.expanded = []) :=
  ⟨select_descends_to_leaf.1 Nat PlaceHolderState exampleTree
      (some (Real.sqrt 2)) 0 9 (phNode 2 (some 8) [] [] 1 1) rfl (Or.inr rfl),
   select_descends_to_leaf.2.2.1 Nat PlaceHolderState exampleTree
      (some (Real.sqrt 2)) 13 0 9 select_descends_to_leaf.2.2.2.1⟩

/-- C9: calling `uct` on a node whose parent is `None` (the root) panics
(`expect("no parent")`): the call aborts with no value, for every
exploration factor. -/
theorem uct_root_panics {A S : Type} (t : MCTSTree A S) (child : Nat)
    (c : Option ℝ) (nd : MCTSNode A S) (h : t.arena.get? child = some nd)
    (hp : nd.parent = none) : uct t child c = none := by
  simp only [uct, h, hp]

/-- C9 witness: `uct` on the root of the example tree aborts. -/
theorem uct_root_panics_wit :
    uct exampleTree 0 (some (Real.sqrt 2)) = none :=
  uct_root_panics exampleTree 0 (some (Real.sqrt 2))
    (phNode 0 none [1, 8] [] 5 12) rfl rfl

/-- Both children of `tieTree` have UCT exactly 1 (their parent has one
simulation, so the exploration term is `c * sqrt(ln 1) = 0`). -/
lemma uct_tie1 : uct tieTree 1 (some (Real.sqrt 2)) = some (FV.val 1) := by
  rw [uct_some tieTree 1 _ (phNode 1 (some 0) [] [] 1 1)
    (phNode 0 none [1, 2] [] 0 1) 0 rfl rfl rfl]
  show some (uctFV 1 1 1 (Real.sqrt 2)) = _
  rw [uctFV_eval 1 1 1 _ (by norm_num) (by norm_num)]
  norm_num [Real.log_one, Real.sqrt_zero]

lemma uct_tie2 : uct tieTree 2 (some (Real.sqrt 2)) = some (FV.val 1) := by
  rw [uct_some tieTree 2 _ (phNode 1 (some 0) [] [] 1 1)
    (phNode 0 none [1, 2] [] 0 1) 0 rfl rfl rfl]
  show some (uctFV 1 1 1 (Real.sqrt 2)) = _
  rw [uctFV_eval 1 1 1 _ (by norm_num) (by norm_num)]
  norm_num [Real.log_one, Real.sqrt_zero]

/-- C4: `uct(child, c)` equals
`wins(child)/sims(child) + c * sqrt(ln(sims(parent)) / sims(child))`
(on defined inputs: positive `sims` on child and parent), `c` defaults to
`sqrt 2` when unspecified, and `get_max_uct_child` scans
`parent.expanded` in stored order keeping the first child whose UCT
strictly exceeds the running maximum, so the returned child is the
earliest one attaining the maximal UCT (equal-UCT ties resolve to the
earlier-encountered child). -/
theorem uct_formula_and_scan :
    (∀ (A S : Type) (t : MCTSTree A S) (child : Nat) (c : ℝ)
        (nd pnd : MCTSNode A S) (p : Nat),
      t.arena.get? child = some nd → nd.parent = some p →
      t.arena.get? p = some pnd → 1 ≤ nd.sims → 1 ≤ pnd.sims →
      uct t child (some c) = some (FV.val ((nd.wins : ℝ) / (nd.sims : ℝ) +
        c * Real.sqrt (Real.log (pnd.sims : ℝ) / (nd.sims : ℝ))))) ∧
    (∀ (A S : Type) (t : MCTSTree A S) (child : Nat),
      uct t child none = uct t child (some (Real.sqrt 2))) ∧
    (∀ (A S : Type) (t : MCTSTree A S) (parent : Nat) (c : Option ℝ)
        (nd : MCTSNode A S) (vs : Nat → ℝ),
      t.arena.get? parent = some nd → nd.expanded ≠ [] →
      (∀ ch ∈ nd.expanded, uct t ch c = some (FV.val (vs ch)) ∧
        f32MIN < vs ch) →
      ∃ k, ∃ hk : k < nd.expanded.length,
        get_max_uct_child t parent c = some (nd.expanded.get ⟨k, hk⟩) ∧
        (∀ m, ∀ hm : m < nd.expanded.length,
          vs (nd.expanded.get ⟨m, hm⟩) ≤ vs (nd.expanded.get ⟨k, hk⟩)) ∧
        (∀ m, ∀ hm : m < nd.expanded.length, m < k →
          vs (nd.expanded.get ⟨m, hm⟩) < vs (nd.expanded.get ⟨k, hk⟩))) := by
  refine ⟨?_, ?_, ?_⟩
  · intro A S t child c nd pnd p h1 h2 h3 hs hps
    rw [uct_some t child (some c) nd pnd p h1 h2 h3, uctFV_eval _ _ _ _ hs hps]
    rfl
  · intro A S t child
    rfl
  · intro A S t parent c nd vs h hne hv
    have hv1 : ∀ ch ∈ nd.expanded, uct t ch c = some (FV.val (vs ch)) :=
      fun ch hch => (hv ch hch).1
    rcases gmGo_argmax t c vs nd.expanded f32MIN 0 hv1 with
      ⟨heq, hle⟩ | ⟨k, hk, heq, hbk, hmax, hstrict⟩
    · exfalso
      cases hl : nd.expanded with
      | nil => exact hne hl
      | cons x xs =>
        have hgt := (hv x (by rw [hl]; exact List.mem_cons_self _ _)).2
        have hle2 := hle x (by rw [hl]; exact List.mem_cons_self _ _)
        linarith
    · refine ⟨k, hk, ?_, hmax, hstrict⟩
      rw [get_max_unfold t parent c nd h]
      exact heq

/-- C4 witness: on the two-equal-children tree the scan returns the
earliest child (index position 0, arena index 1), both children having
UCT exactly 1; the formula and default-factor parts instantiated at
child 1. -/
theorem uct_formula_and_scan_wit :
    (uct tieTree 1 (some (Real.sqrt 2)) =
      some (FV.val ((1 : ℝ) / (1 : ℝ) +
        Real.sqrt 2 * Real.sqrt (Real.log (1 : ℝ) / (1 : ℝ))))) ∧
    (uct tieTree 1 none = uct tieTree 1 (some (Real.sqrt 2))) ∧
    ∃ k, ∃ hk : k < [1, 2].length,
      get_max_uct_child tieTree 0 (some (Real.sqrt 2)) =
        some ([1, 2].get ⟨k, hk⟩) := by
  refine ⟨?_, ?_, ?_⟩
  · have h := uct_formula_and_scan.1 Nat PlaceHolderState tieTree 1 (Real.sqrt 2)
      (phNode 1 (some 0) [] [] 1 1) (phNode 0 none [1, 2] [] 0 1) 0 rfl rfl rfl
      (by decide) (by decide)
    rw [h]
    norm_num [phNode, Real.log_one, Real.sqrt_zero]
  · exact uct_formula_and_scan.2.1 Nat PlaceHolderState tieTree 1
  · obtain ⟨k, hk, heq, -, -⟩ := uct_formula_and_scan.2.2 Nat PlaceHolderState
      tieTree 0 (some (Real.sqrt 2)) (phNode 0 none [1, 2] [] 0 1)
      (fun _ => 1) rfl (by decide)
      (by
        intro ch hch
        have hmin : f32MIN < 1 := lt_trans f32MIN_neg one_pos
        rcases List.mem_cons.mp hch with rfl | hch
        · exact ⟨uct_tie1, hmin⟩
        · rcases List.mem_cons.mp hch with rfl | hch
          · exact ⟨uct_tie2, hmin⟩
          · exact absurd hch (by simp))
    exact ⟨k, hk, heq⟩

/-- The lone expanded child of `nanTree` has `wins = sims = 0`: its UCT is
NaN. -/
lemma uct_nanTree1 : uct nanTree 1 (some (Real.sqrt 2)) = some FV.nan := by
  rw [uct_some nanTree 1 _ (phNode 1 (some 0) [] [] 0 0)
    (phNode 0 none [1] [] 5 12) 0 rfl rfl rfl]
  show some (uctFV 0 0 12 (Real.sqrt 2)) = _
  rw [uctFV_nan]

/-- C10: `get_max_uct_child` returns arena index 0 — not an error, and not
necessarily a child of `parent` — whenever `parent.expanded` is empty, and
whenever no expanded child's UCT exceeds `f32::MIN` (in particular a child
with `sims = 0` and `wins = 0` has UCT NaN, and NaN never compares
greater); `select` then continues its descent from index 0. -/
theorem get_max_default_zero :
    (∀ (A S : Type) (t : MCTSTree A S) (parent : Nat) (c : Option ℝ)
        (nd : MCTSNode A S),
      t.arena.get? parent = some nd → nd.expanded = [] →
      get_max_uct_child t parent c = some 0) ∧
    (∀ (A S : Type) (t : MCTSTree A S) (parent : Nat) (c : Option ℝ)
        (nd : MCTSNode A S),
      t.arena.get? parent = some nd →
      (∀ ch ∈ nd.expanded, ∃ u, uct t ch c = some u ∧
        ¬ fgt u (FV.val f32MIN)) →
      get_max_uct_child t parent c = some 0) ∧
    (∀ (ps : Nat) (c : ℝ),
      uctFV 0 0 ps c = FV.nan ∧ ∀ u, ¬ fgt FV.nan u) ∧
    (∀ (A S : Type) (t : MCTSTree A S) (c : Option ℝ) (fuel root : Nat)
        (nd : MCTSNode A S),
      t.arena.get? root = some nd → nd.unexpanded = [] → nd.expanded ≠ [] →
      get_max_uct_child t root c = some 0 →
      selectFuel t c (fuel + 1) root = selectFuel t c fuel 0) := by
  refine ⟨?_, ?_, ?_, ?_⟩
  · intro A S t parent c nd h he
    rw [get_max_unfold t parent c nd h, he]
    rfl
  · intro A S t parent c nd h hv
    rw [get_max_unfold t parent c nd h]
    exact gmGo_stay t c (FV.val f32MIN) nd.expanded 0 hv
  · intro ps c
    exact ⟨uctFV_nan ps c, fgt_nan_left⟩
  · intro A S t c fuel root nd h hu he hgm
    rw [selectFuel_desc t c fuel root nd h hu he, hgm, Option.some_bind]

/-- C10 witness: on `nanTree` the childless node 1 yields index 0, the
root's scan over its NaN-valued child yields index 0, and one `select`
step from the root continues from index 0. -/
theorem get_max_default_zero_wit :
    get_max_uct_child nanTree 1 (some (Real.sqrt 2)) = some 0 ∧
    get_max_uct_child nanTree 0 (some (Real.sqrt 2)) = some 0 ∧
    selectFuel nanTree (some (Real.sqrt 2)) 6 0 =
      selectFuel nanTree (some (Real.sqrt 2)) 5 0 := by
  have hscan : get_max_uct_child nanTree 0 (some (Real.sqrt 2)) = some 0 :=
    get_max_default_zero.2.1 Nat PlaceHolderState nanTree 0 (some (Real.sqrt 2))
      (phNode 0 none [1] [] 5 12) rfl
      (by
        intro ch hch
        rcases List.mem_cons.mp hch with rfl | hch
        · exact ⟨FV.nan, uct_nanTree1, fgt_nan_left _⟩
        · exact absurd hch (by simp))
  refine ⟨?_, hscan, ?_⟩
  · exact get_max_default_zero.1 Nat PlaceHolderState nanTree 1
      (some (Real.sqrt 2)) (phNode 1 (some 0) [] [] 0 0) rfl rfl
  · exact get_max_default_zero.2.2.2 Nat PlaceHolderState nanTree
      (some (Real.sqrt 2)) 5 0 (phNode 0 none [1] [] 5 12) rfl rfl
      (by decide) hscan

end MctsVerify
